import Mathlib

/-!
Verification development for the mtc-stations car-park matching scripts.

Strings are modelled as lists of characters (`Str`).  The scripts' text
processing (`normalize_address`, the fuzzy-matching loops, the aggregate
`all_matches` dictionary, per-method matching) is embedded directly from the
Python source.  External collaborators (the `difflib.SequenceMatcher.ratio`
similarity, `shapely` polygon containment, the `pyproj` coordinate transform,
the database rows) are passed in as explicit function and data parameters,
mirroring the spec's treatment of them as collaborators.  `haversine_distance`
is embedded over the real numbers (the mathematical reading of the float
formula).  Python's `/` raising `ZeroDivisionError` is modelled with `Except`.
-/

/-- Characters of a string; the scripts operate on Python `str` values which
we model as lists of characters. -/
abbrev Str := List Char

/-- Build a `Str` from a Lean string literal. -/
def str (s : String) : Str := s.data

/-- The whitespace test used by Python's `str.split()` / `str.strip()`
(restricted to the ASCII whitespace characters that can occur here). -/
def isSp (c : Char) : Bool := c = ' ' || c = '\t' || c = '\n' || c = '\r'

/-- ASCII lower-casing of one character, as Python's `str.lower` acts on the
ASCII range used by these data sets. -/
def lowChar (c : Char) : Char :=
  if 65 ≤ c.toNat ∧ c.toNat ≤ 90 then Char.ofNat (c.toNat + 32) else c

/-- `str.lower()`. -/
def lowerStr (s : Str) : Str := s.map lowChar

/-- `pat` is an initial segment of `s`. -/
def leadSeg : Str → Str → Bool
  | [], _ => true
  | _ :: _, [] => false
  | p :: ps, c :: cs => p = c && leadSeg ps cs

/-- Worker for `replaceAll`, structurally recursive on a fuel argument so
that concrete instances evaluate inside the kernel; `fuel ≥ s.length` makes
the fuel inexhaustible. -/
def replaceAllAux (pat new : Str) : Nat → Str → Str
  | 0, s => s
  | _ + 1, [] => []
  | fuel + 1, c :: cs =>
    if pat ≠ [] ∧ leadSeg pat (c :: cs) = true then
      new ++ replaceAllAux pat new fuel (cs.drop (pat.length - 1))
    else
      c :: replaceAllAux pat new fuel cs

/-- Python's `s.replace(pat, new)`: replace all non-overlapping occurrences,
scanning left to right and continuing after each replacement.  (For the empty
pattern, which never occurs in the scripts, we leave the string unchanged.) -/
def replaceAll (s pat new : Str) : Str := replaceAllAux pat new s.length s

/-- `str.lstrip()` on whitespace. -/
def ltrim (s : Str) : Str := s.dropWhile isSp

/-- Python's `str.strip()`: drop whitespace from both ends. -/
def strip (s : Str) : Str := ((ltrim s).reverse.dropWhile isSp).reverse

/-- The word-splitting pass of Python's `str.split()` (no separator):
accumulate maximal runs of non-whitespace characters. -/
def splitAux (s : Str) : List Str :=
  s.foldr
    (fun c acc =>
      if isSp c then [] :: acc
      else
        match acc with
        | [] => [[c]]
        | w :: ws => (c :: w) :: ws)
    []

/-- Python's `str.split()` with no argument: whitespace-separated words,
empty words discarded. -/
def splitWs (s : Str) : List Str := (splitAux s).filter (fun w => !w.isEmpty)

/-- Python's `' '.join(words)`. -/
def joinSpace : List Str → Str
  | [] => []
  | [w] => w
  | w :: v :: ws => w ++ ' ' :: joinSpace (v :: ws)

/-- The fixed ordered substitution table of `normalize_address`, applied in
the source's dictionary order: road→rd, street→st, avenue→ave, building→bldg,
centre→center, car park→carpark, then stripping commas and periods. -/
def replChain (s : Str) : Str :=
  replaceAll
    (replaceAll
      (replaceAll
        (replaceAll
          (replaceAll
            (replaceAll
              (replaceAll
                (replaceAll s (str "road") (str "rd"))
                (str "street") (str "st"))
              (str "avenue") (str "ave"))
            (str "building") (str "bldg"))
          (str "centre") (str "center"))
        (str "car park") (str "carpark"))
      (str ",") [])
    (str ".") []

/-- `normalize_address` from analyze-matching-methods.py and
analyze-unique-aggregate-matches.py: empty input stays empty; otherwise
lower-case, strip, apply the substitution table, and collapse whitespace
runs via `' '.join(addr.split())`. -/
def normalize_address (addr : Str) : Str :=
  if addr = [] then []
  else joinSpace (splitWs (replChain (strip (lowerStr addr))))

/-! ## GeoMath: `haversine_distance`, shared by three scripts -/

/-- `math.radians`. -/
noncomputable def radiansR (x : ℝ) : ℝ := x * Real.pi / 180

/-- `haversine_distance` from analyze-connected-overlap-coords.py,
analyze-matching-methods.py and analyze-unique-aggregate-matches.py, read
over the real numbers: haversine formula with earth radius 6 371 000 m. -/
noncomputable def haversine_distance (lat1 lon1 lat2 lon2 : ℝ) : ℝ :=
  let lon1r := radiansR lon1
  let lat1r := radiansR lat1
  let lon2r := radiansR lon2
  let lat2r := radiansR lat2
  let dlon := lon2r - lon1r
  let dlat := lat2r - lat1r
  let a := Real.sin (dlat / 2) ^ 2 +
    Real.cos lat1r * Real.cos lat2r * Real.sin (dlon / 2) ^ 2
  let c := 2 * Real.arcsin (Real.sqrt a)
  c * 6371000

/-! ## Python integer/float division -/

/-- The observable error of a Python arithmetic expression. -/
inductive PyErr
  | zeroDivision
deriving DecidableEq

/-- Python's `/`: raises `ZeroDivisionError` on a zero denominator. -/
def pyDiv (a b : ℚ) : Except PyErr ℚ :=
  if b = 0 then Except.error PyErr.zeroDivision else Except.ok (a / b)

/-! ## Data model

Coordinates in the matching loops are the scripts' parsed float values,
modelled as rationals (every finite IEEE double is a rational); the distance,
similarity, containment and reprojection collaborators are explicit
parameters. -/

/-- A connected-carpark row (external record): name, address, coordinates. -/
structure ConnCp where
  name : Str
  address : Str
  lat : ℚ
  lon : ℚ
deriving DecidableEq

/-- A database carpark row (canonical record). -/
structure DbCp where
  park_id : Nat
  name : Str
  addr : Str
  lat : ℚ
  lon : ℚ
deriving DecidableEq

/-- The three-column database row used by analyze-connected-overlap.py
(`park_id, name, display_address`). -/
structure DbRow where
  park_id : Nat
  name : Str
  addr : Str
deriving DecidableEq

/-- A connected-carpark CSV row as read by analyze-connected-overlap.py
(name and address only; no coordinate parsing in that script). -/
structure ConnRow where
  name : Str
  address : Str
deriving DecidableEq

/-- A GeoJSON feature geometry: type tag and coordinate rings. -/
structure Geom where
  gtype : Str
  rings : List (List (ℚ × ℚ))
deriving DecidableEq

/-- A building feature from the Building_GEOJSON file. -/
structure Feature where
  fid : Nat
  name_en : Option Str
  name_tc : Option Str
  geometry : Option Geom
deriving DecidableEq

/-- A reprojected building: id, names, and WGS84 polygon ring. -/
structure Building where
  bid : Nat
  name_en : Option Str
  name_tc : Option Str
  polygon : List (ℚ × ℚ)
deriving DecidableEq

/-- The method tags appended to `all_matches[...]['methods']` (the strings
'coordinate', 'address', 'polygon' in the source). -/
inductive Method
  | coordinate
  | address
  | polygon
deriving DecidableEq

/-! ## Generic loop shapes shared by the scripts -/

/-- The best-score loop body: `if combined_score > best_score:` update,
starting from `best_match = None`, `best_score = 0`. -/
def bestAux (score : α → ℚ) : List α → Option α × ℚ → Option α × ℚ
  | [], acc => acc
  | x :: rest, acc =>
    bestAux score rest (if score x > acc.2 then (some x, score x) else acc)

/-- `best_match, best_score` after scanning the whole collection. -/
def best_pair (score : α → ℚ) (l : List α) : Option α × ℚ :=
  bestAux score l (none, 0)

/-- The closest-record loop body: `if distance < closest_distance:` update. -/
def scanAux (dist : α → ℚ) : List α → α × ℚ → α × ℚ
  | [], acc => acc
  | x :: rest, acc =>
    scanAux dist rest (if dist x < acc.2 then (x, dist x) else acc)

/-- `closest_match, closest_distance` of analyze-connected-overlap-coords.py:
the source seeds with `None` and `float('inf')`; the first record always
replaces the infinite seed, so scanning is seeded with the first record. -/
def closest_scan (dist : α → ℚ) : List α → Option (α × ℚ)
  | [] => none
  | x :: rest => some (scanAux dist rest (x, dist x))

/-! ## analyze-connected-overlap-coords.py: proximity matching (minimum) -/

/-- The per-record distance function (`haversine_distance(conn.lat, conn.lon,
db.lat, db.lon)`), with the distance collaborator `dist` explicit. -/
def connDist (dist : ℚ → ℚ → ℚ → ℚ → ℚ) (conn : ConnCp) (db : DbCp) : ℚ :=
  dist conn.lat conn.lon db.lat db.lon

/-- `closest_match`/`closest_distance` for one connected carpark. -/
def closest_match (dist : ℚ → ℚ → ℚ → ℚ → ℚ) (dbs : List DbCp) (conn : ConnCp) :
    Option (DbCp × ℚ) :=
  closest_scan (connDist dist conn) dbs

/-- The proximity verdict of analyze-connected-overlap-coords.py for one
record: a candidate iff the closest database carpark is within 100 m. -/
def proximityCandidate (dist : ℚ → ℚ → ℚ → ℚ → ℚ) (dbs : List DbCp) (conn : ConnCp) :
    Option (DbCp × ℚ) :=
  match closest_match dist dbs conn with
  | some (db, d) => if d ≤ 100 then some (db, d) else none
  | none => none

/-- The `matches` list of analyze-connected-overlap-coords.py. -/
def coordsMatches (dist : ℚ → ℚ → ℚ → ℚ → ℚ) (conns : List ConnCp) (dbs : List DbCp) :
    List (ConnCp × DbCp × ℚ) :=
  conns.filterMap (fun conn =>
    (proximityCandidate dist dbs conn).map (fun p => (conn, p.1, p.2)))

/-! ## analyze-matching-methods.py -/

/-- Method 1 (`coord_matches` loop body): take the FIRST database carpark
within 100 m, `break`ing out of the inner loop. -/
def coordMatchOne (dist : ℚ → ℚ → ℚ → ℚ → ℚ) (dbs : List DbCp) (conn : ConnCp) :
    Option DbCp :=
  dbs.find? (fun db => decide (connDist dist conn db ≤ 100))

/-- An element of the `coord_matches` list. -/
structure CoordMatch where
  connected_name : Str
  db_name : Str
  park_id : Nat
  distance_m : ℚ
deriving DecidableEq

/-- The `coord_matches` list of analyze-matching-methods.py. -/
def coord_matches (dist : ℚ → ℚ → ℚ → ℚ → ℚ) (conns : List ConnCp) (dbs : List DbCp) :
    List CoordMatch :=
  conns.filterMap (fun conn =>
    (coordMatchOne dist dbs conn).map (fun db =>
      { connected_name := conn.name, db_name := db.name, park_id := db.park_id,
        distance_m := connDist dist conn db }))

/-- `address_similarity(addr1, addr2)`: similarity of normalized addresses,
with the `SequenceMatcher.ratio` collaborator `sim` explicit. -/
def address_similarity (sim : Str → Str → ℚ) (a b : Str) : ℚ :=
  sim (normalize_address a) (normalize_address b)

/-- The combined score of Method 2 (also used by the aggregate script):
`addr_sim * 0.7 + name_sim * 0.3`. -/
def combined_score (sim : Str → Str → ℚ) (conn : ConnCp) (db : DbCp) : ℚ :=
  address_similarity sim conn.address db.addr * (7 / 10) +
    sim (lowerStr conn.name) (lowerStr db.name) * (3 / 10)

/-- An element of the `addr_matches` list. -/
structure AddrMatch where
  connected_name : Str
  connected_addr : Str
  db_name : Str
  db_addr : Str
  park_id : Nat
  score : ℚ
deriving DecidableEq

/-- Method 2 (`addr_matches` loop body): best combined score over the whole
collection, accepted iff `best_score >= 0.7`.  (When the collection is empty
`best_match` stays `None` with score 0, below every threshold.) -/
def addrMatchOne (sim : Str → Str → ℚ) (dbs : List DbCp) (conn : ConnCp) :
    Option AddrMatch :=
  match best_pair (combined_score sim conn) dbs with
  | (some db, s) =>
    if s ≥ 7 / 10 then
      some { connected_name := conn.name, connected_addr := conn.address,
             db_name := db.name, db_addr := db.addr, park_id := db.park_id,
             score := s }
    else none
  | (none, _) => none

/-- The `addr_matches` list of analyze-matching-methods.py. -/
def addr_matches (sim : Str → Str → ℚ) (conns : List ConnCp) (dbs : List DbCp) :
    List AddrMatch :=
  conns.filterMap (addrMatchOne sim dbs)

/-- Building construction inside the `try:` block: features whose geometry is
absent or not a `Polygon` are skipped; for a polygon feature every coordinate
of `coordinates[0]` goes through the `pyproj` transform collaborator `tr`
(`Except.error` = a raised exception, which propagates out of the loop). -/
def buildBuildings (tr : ℚ × ℚ → Except Unit (ℚ × ℚ)) :
    List Feature → Except Unit (List Building)
  | [] => Except.ok []
  | f :: fs =>
    match f.geometry with
    | none => buildBuildings tr fs
    | some g =>
      if g.gtype = str "Polygon" then
        match g.rings with
        | [] => Except.error ()
        | ring :: _ =>
          match ring.mapM tr with
          | Except.error e => Except.error e
          | Except.ok wgs =>
            (buildBuildings tr fs).map
              (fun bs =>
                { bid := f.fid, name_en := f.name_en, name_tc := f.name_tc,
                  polygon := wgs } :: bs)
      else buildBuildings tr fs

/-- An element of the `polygon_matches` list. -/
structure PolyMatch where
  connected_name : Str
  db_name : Str
  park_id : Nat
  building_id : Nat
  building_name_en : Option Str
  building_name_tc : Option Str
deriving DecidableEq

/-- Method 3 loop body: the first building containing the connected carpark
point, then the first database carpark inside that same building (`ctn` is
the shapely `polygon.contains(point)` collaborator; points are `(lon, lat)`
pairs as in `Point(lon, lat)`). -/
def polyMatchOne (ctn : Building → ℚ × ℚ → Bool) (buildings : List Building)
    (dbs : List DbCp) (conn : ConnCp) : Option PolyMatch :=
  match buildings.find? (fun b => ctn b (conn.lon, conn.lat)) with
  | none => none
  | some bldg =>
    (dbs.find? (fun db => ctn bldg (db.lon, db.lat))).map
      (fun db =>
        { connected_name := conn.name, db_name := db.name, park_id := db.park_id,
          building_id := bldg.bid, building_name_en := bldg.name_en,
          building_name_tc := bldg.name_tc })

/-- The `polygon_matches` list of analyze-matching-methods.py.  The whole of
Method 3 sits inside one `try: ... except:` — if building construction raises
anywhere, the matching loop never runs and no polygon match is produced. -/
def polygon_matches (tr : ℚ × ℚ → Except Unit (ℚ × ℚ)) (ctn : Building → ℚ × ℚ → Bool)
    (features : List Feature) (conns : List ConnCp) (dbs : List DbCp) : List PolyMatch :=
  match buildBuildings tr features with
  | Except.error _ => []
  | Except.ok buildings => conns.filterMap (polyMatchOne ctn buildings dbs)

/-! ## analyze-connected-overlap.py: name-led lexical matching -/

/-- `db_names` dict construction: `{row[1].lower(): (row[0], row[1], row[2])}`.
Python dict semantics: a repeated key keeps its first position but takes the
latest value. -/
def dictUpsert (m : List (Str × DbRow)) (k : Str) (v : DbRow) : List (Str × DbRow) :=
  if (m.find? (fun p => decide (p.1 = k))).isSome then
    m.map (fun p => if p.1 = k then (k, v) else p)
  else m ++ [(k, v)]

/-- The `db_names` mapping of analyze-connected-overlap.py. -/
def db_names (rows : List DbRow) : List (Str × DbRow) :=
  rows.foldl (fun m r => dictUpsert m (lowerStr r.name) r) []

/-- `similarity(a, b)`: `SequenceMatcher(None, a.lower(), b.lower()).ratio()`
with the ratio collaborator `sim` explicit. -/
def similarity (sim : Str → Str → ℚ) (a b : Str) : ℚ :=
  sim (lowerStr a) (lowerStr b)

/-- The fuzzy combined score of analyze-connected-overlap.py:
`name_score * 0.7 + addr_score * 0.3`, with the address score contributing
only when both addresses are non-empty (Python truthiness). -/
def ovScore (sim : Str → Str → ℚ) (conn : ConnRow) (p : Str × DbRow) : ℚ :=
  let name_score := similarity sim conn.name p.2.name
  let addr_score :=
    if conn.address ≠ [] ∧ p.2.addr ≠ [] then similarity sim conn.address p.2.addr
    else 0
  name_score * (7 / 10) + addr_score * (3 / 10)

/-- How a record matched in analyze-connected-overlap.py. -/
inductive MatchType
  | exact
  | fuzzy (score : ℚ)
deriving DecidableEq

/-- An element of the `matches` list of analyze-connected-overlap.py. -/
structure OvMatch where
  connected_name : Str
  db_name : Str
  park_id : Nat
  mtype : MatchType
deriving DecidableEq

/-- An element of the `unmatched_connected` list of
analyze-connected-overlap.py. -/
structure OvUnmatched where
  name : Str
  address : Str
  best_match_name : Option Str
  score : ℚ
deriving DecidableEq

/-- One iteration of the matching loop of analyze-connected-overlap.py:
exact case-insensitive name lookup first (immediate acceptance, scoring loop
bypassed), otherwise the fuzzy best-score loop with strict threshold
`best_score > 0.6`.  (The `(none, s)` fuzzy-accept case is unreachable: with
no update the score stays 0.) -/
def ovMatchOne (sim : Str → Str → ℚ) (dbn : List (Str × DbRow)) (conn : ConnRow) :
    Sum OvMatch OvUnmatched :=
  match dbn.find? (fun p => decide (p.1 = lowerStr conn.name)) with
  | some p =>
    Sum.inl { connected_name := conn.name, db_name := p.2.name,
              park_id := p.2.park_id, mtype := MatchType.exact }
  | none =>
    match best_pair (ovScore sim conn) dbn with
    | (some p, s) =>
      if s > 3 / 5 then
        Sum.inl { connected_name := conn.name, db_name := p.2.name,
                  park_id := p.2.park_id, mtype := MatchType.fuzzy s }
      else
        Sum.inr { name := conn.name, address := conn.address,
                  best_match_name := some p.2.name, score := s }
    | (none, s) =>
      Sum.inr { name := conn.name, address := conn.address,
                best_match_name := none, score := s }

/-- The `matches` / `unmatched_connected` lists of
analyze-connected-overlap.py. -/
def ovProcess (sim : Str → Str → ℚ) (dbn : List (Str × DbRow)) (conns : List ConnRow) :
    List OvMatch × List OvUnmatched :=
  conns.foldl
    (fun acc conn =>
      match ovMatchOne sim dbn conn with
      | Sum.inl m => (acc.1 ++ [m], acc.2)
      | Sum.inr u => (acc.1, acc.2 ++ [u]))
    ([], [])

/-- The summary line `len(matches) / len(connected_carparks) * 100` of
analyze-connected-overlap.py, with Python division semantics. -/
def overlap_percentage (sim : Str → Str → ℚ) (rows : List DbRow) (conns : List ConnRow) :
    Except PyErr ℚ :=
  (pyDiv (((ovProcess sim (db_names rows) conns).1.length : ℚ))
      ((conns.length : ℚ))).map (fun q => q * 100)

/-! ## analyze-unique-aggregate-matches.py: the `all_matches` fusion -/

/-- An entry of the `all_matches` dictionary (optional fields model keys that
a phase may or may not have set). -/
structure Entry where
  connected_name : Str
  connected_addr : Str
  db_name : Str
  park_id : Nat
  methods : List Method
  coord_distance : Option ℚ := none
  addr_score : Option ℚ := none
  db_addr : Option Str := none
  building_name_en : Option (Option Str) := none
  building_name_tc : Option (Option Str) := none
deriving DecidableEq

/-- `all_matches[name]` lookup. -/
def lookupEntry (m : List Entry) (n : Str) : Option Entry :=
  m.find? (fun e => decide (e.connected_name = n))

/-- In-place update of the entry keyed `n` (dict keys are unique, so mapping
over every equal-keyed element matches dict item assignment). -/
def updateEntry (m : List Entry) (n : Str) (f : Entry → Entry) : List Entry :=
  m.map (fun e => if e.connected_name = n then f e else e)

/-- The source's recurring pattern: `if name not in all_matches:` insert a
fresh entry, then mutate the entry at that key. -/
def touch (m : List Entry) (n : Str) (init : Entry) (f : Entry → Entry) : List Entry :=
  updateEntry (if (lookupEntry m n).isSome then m else m ++ [init]) n f

/-- Method 1 of the aggregate script: first database carpark within 100 m;
on a hit, create the entry if absent (with THAT carpark's identity), then
append 'coordinate' and record the distance. -/
def phase1Step (dist : ℚ → ℚ → ℚ → ℚ → ℚ) (dbs : List DbCp) (m : List Entry)
    (conn : ConnCp) : List Entry :=
  match dbs.find? (fun db => decide (connDist dist conn db ≤ 100)) with
  | none => m
  | some db =>
    touch m conn.name
      { connected_name := conn.name, connected_addr := conn.address,
        db_name := db.name, park_id := db.park_id, methods := [] }
      (fun e =>
        { e with methods := e.methods ++ [Method.coordinate],
                 coord_distance := some (connDist dist conn db) })

/-- Method 1 over all connected carparks. -/
def phase1 (dist : ℚ → ℚ → ℚ → ℚ → ℚ) (dbs : List DbCp) (conns : List ConnCp)
    (m : List Entry) : List Entry :=
  conns.foldl (phase1Step dist dbs) m

/-- Method 2 of the aggregate script: best combined address/name score with
threshold `>= 0.7`; on a hit, create the entry if absent (with the best
carpark's identity), then append 'address' and record score and address. -/
def phase2Step (sim : Str → Str → ℚ) (dbs : List DbCp) (m : List Entry)
    (conn : ConnCp) : List Entry :=
  match best_pair (combined_score sim conn) dbs with
  | (some db, s) =>
    if s ≥ 7 / 10 then
      touch m conn.name
        { connected_name := conn.name, connected_addr := conn.address,
          db_name := db.name, park_id := db.park_id, methods := [] }
        (fun e =>
          { e with methods := e.methods ++ [Method.address],
                   addr_score := some s, db_addr := some db.addr })
    else m
  | (none, _) => m

/-- Method 2 over all connected carparks. -/
def phase2 (sim : Str → Str → ℚ) (dbs : List DbCp) (conns : List ConnCp)
    (m : List Entry) : List Entry :=
  conns.foldl (phase2Step sim dbs) m

/-- Method 3 of the aggregate script: first containing building, then first
database carpark inside it; on a hit, create the entry if absent, then append
'polygon' and record the building names. -/
def phase3Step (ctn : Building → ℚ × ℚ → Bool) (dbs : List DbCp)
    (buildings : List Building) (m : List Entry) (conn : ConnCp) : List Entry :=
  match buildings.find? (fun b => ctn b (conn.lon, conn.lat)) with
  | none => m
  | some bldg =>
    match dbs.find? (fun db => ctn bldg (db.lon, db.lat)) with
    | none => m
    | some db =>
      touch m conn.name
        { connected_name := conn.name, connected_addr := conn.address,
          db_name := db.name, park_id := db.park_id, methods := [],
          building_name_en := some bldg.name_en,
          building_name_tc := some bldg.name_tc }
        (fun e =>
          { e with methods := e.methods ++ [Method.polygon],
                   building_name_en := some bldg.name_en,
                   building_name_tc := some bldg.name_tc })

/-- Method 3 over all connected carparks; a raised exception during building
construction aborts the whole `try:` block, leaving `all_matches` as the
first two methods left it. -/
def phase3 (bres : Except Unit (List Building)) (ctn : Building → ℚ × ℚ → Bool)
    (dbs : List DbCp) (conns : List ConnCp) (m : List Entry) : List Entry :=
  match bres with
  | Except.error _ => m
  | Except.ok buildings => conns.foldl (phase3Step ctn dbs buildings) m

/-- The final `all_matches` of analyze-unique-aggregate-matches.py: the three
methods run in sequence over one shared dictionary, starting empty. -/
def all_matches (dist : ℚ → ℚ → ℚ → ℚ → ℚ) (sim : Str → Str → ℚ)
    (ctn : Building → ℚ × ℚ → Bool) (tr : ℚ × ℚ → Except Unit (ℚ × ℚ))
    (conns : List ConnCp) (dbs : List DbCp) (features : List Feature) : List Entry :=
  phase3 (buildBuildings tr features) ctn dbs conns
    (phase2 sim dbs conns (phase1 dist dbs conns []))

/-! ## Keys of the aggregate dictionary -/

/-- The key sequence of the `all_matches` dictionary. -/
def keysOf (m : List Entry) : List Str := m.map (fun e => e.connected_name)

/-! ## Concrete instances used in claim-level counterexamples and witnesses -/

/-- A distance collaborator: 50 m to any record at latitude 1, 10 m to the
rest. -/
def exDist3 : ℚ → ℚ → ℚ → ℚ → ℚ := fun _ _ la _ => if la = 1 then 50 else 10

/-- Canonical record at 50 m. -/
def exDbA : DbCp := { park_id := 1, name := str "A", addr := [], lat := 1, lon := 0 }

/-- Canonical record at 10 m (strictly closer, listed second). -/
def exDbB : DbCp := { park_id := 2, name := str "B", addr := [], lat := 2, lon := 0 }

/-- External record for the proximity examples. -/
def exConn3 : ConnCp := { name := str "X", address := [], lat := 0, lon := 0 }

/-- A distance collaborator: 50 m to any record at latitude 1, far otherwise. -/
def exDistC2 : ℚ → ℚ → ℚ → ℚ → ℚ := fun _ _ la _ => if la = 1 then 50 else 1000

/-- Canonical record matched by the coordinate method. -/
def exDbA2 : DbCp := { park_id := 1, name := str "A", addr := str "a", lat := 1, lon := 0 }

/-- Canonical record matched by the polygon method only. -/
def exDbB2 : DbCp := { park_id := 2, name := str "B", addr := str "b", lat := 9, lon := 9 }

/-- External record for the fusion-conflict example. -/
def exConn2 : ConnCp := { name := str "X", address := str "x", lat := 3, lon := 3 }

/-- A similarity collaborator that scores every pair 0 (keeps the address
method out of the fusion-conflict example). -/
def zeroSim : Str → Str → ℚ := fun _ _ => 0

/-- A polygon feature whose ring reprojects successfully. -/
def exFeatC2 : Feature :=
  { fid := 7, name_en := none, name_tc := none,
    geometry := some { gtype := str "Polygon", rings := [[(0, 0)]] } }

/-- A reprojection collaborator that always succeeds. -/
def exTrOk : ℚ × ℚ → Except Unit (ℚ × ℚ) := fun p => Except.ok p

/-- A containment collaborator: building 7 contains exactly the external
point (3, 3) and the database point (9, 9). -/
def exCtn2 : Building → ℚ × ℚ → Bool :=
  fun b p => decide (b.bid = 7 ∧ (p = (3, 3) ∨ p = (9, 9)))

/-- A similarity collaborator scoring every pair 0.6 exactly (realized by
`SequenceMatcher` on e.g. "abcxx" vs "abcyy"). -/
def constSim : Str → Str → ℚ := fun _ _ => 3 / 5

/-- External row for the exact-0.6 example. -/
def exConnRow4 : ConnRow := { name := str "alpha", address := str "x" }

/-- Database row for the exact-0.6 example. -/
def exDbRow4 : DbRow := { park_id := 9, name := str "beta", addr := str "y" }

/-- The similarity of identical strings is 1 and of disjoint strings is 0,
exactly as `SequenceMatcher.ratio` behaves on such pairs. -/
def eqSim : Str → Str → ℚ := fun a b => if a = b then 1 else 0

/-- External record whose name matches a canonical name up to case. -/
def exConn7 : ConnCp := { name := str "CENTRAL", address := str "aaa", lat := 0, lon := 0 }

/-- Canonical record with the same case-folded name but a disjoint address. -/
def exDb7 : DbCp := { park_id := 5, name := str "Central", addr := str "zzz", lat := 0, lon := 0 }

/-- External row for the name-led short-circuit witness. -/
def exConnRow7 : ConnRow := { name := str "Central Car Park", address := str "foo" }

/-- Database row for the name-led short-circuit witness. -/
def exDbRow7 : DbRow := { park_id := 8, name := str "CENTRAL CAR PARK", addr := str "bar" }

/-- External record accepted by the address-led variant in the threshold
witness. -/
def exConn4b : ConnCp := { name := str "n1", address := str "same addr", lat := 0, lon := 0 }

/-- Canonical record sharing the normalized address in the threshold
witness. -/
def exDb4b : DbCp := { park_id := 11, name := str "n2", addr := str "same addr", lat := 0, lon := 0 }

/-- A reprojection collaborator that fails exactly on the coordinate (9, 9). -/
def exTrBad : ℚ × ℚ → Except Unit (ℚ × ℚ) :=
  fun p => if p = (9, 9) then Except.error () else Except.ok p

/-- A footprint whose ring reprojects successfully. -/
def exGoodFeat : Feature :=
  { fid := 1, name_en := none, name_tc := none,
    geometry := some { gtype := str "Polygon", rings := [[(0, 0), (2, 0), (2, 2), (0, 2)]] } }

/-- A footprint containing the failing coordinate (9, 9). -/
def exBadFeat : Feature :=
  { fid := 2, name_en := none, name_tc := none,
    geometry := some { gtype := str "Polygon", rings := [[(9, 9)]] } }

/-- A feature with no geometry (skipped individually by the loop). -/
def exNoGeomFeat : Feature := { fid := 4, name_en := none, name_tc := none, geometry := none }

/-- A containment collaborator: building 1 contains exactly the point (1, 1). -/
def exCtn6 : Building → ℚ × ℚ → Bool := fun b p => decide (b.bid = 1 ∧ p = (1, 1))

/-- External record inside the good footprint. -/
def exConn6 : ConnCp := { name := str "P", address := [], lat := 1, lon := 1 }

/-- Canonical record inside the good footprint. -/
def exDb6 : DbCp := { park_id := 3, name := str "Q", addr := [], lat := 1, lon := 1 }

/-! ## Lemmas about the closest-record scan -/

theorem scanAux_snd_le (dist : α → ℚ) (l : List α) (acc : α × ℚ) :
    (scanAux dist l acc).2 ≤ acc.2 := by
  induction l generalizing acc with
  | nil => simp [scanAux]
  | cons x rest ih =>
    simp only [scanAux]
    refine le_trans (ih _) ?_
    by_cases h : dist x < acc.2 <;> simp [h, le_of_lt]

theorem scanAux_min (dist : α → ℚ) (l : List α) (acc : α × ℚ) :
    ∀ x ∈ l, (scanAux dist l acc).2 ≤ dist x := by
  induction l generalizing acc with
  | nil => simp
  | cons y rest ih =>
    intro x hx
    simp only [scanAux]
    rcases List.mem_cons.mp hx with h | h
    · subst h
      refine le_trans (scanAux_snd_le dist rest _) ?_
      by_cases h : dist x < acc.2
      · simp [h]
      · simp [h]
        exact le_of_not_lt h
    · exact ih _ x h

theorem scanAux_mem (dist : α → ℚ) (l : List α) (acc : α × ℚ) :
    scanAux dist l acc = acc ∨
      ((scanAux dist l acc).1 ∈ l ∧ (scanAux dist l acc).2 = dist (scanAux dist l acc).1) := by
  induction l generalizing acc with
  | nil => left; simp [scanAux]
  | cons x rest ih =>
    simp only [scanAux]
    by_cases h : dist x < acc.2
    · simp only [h, if_pos]
      rcases ih (x, dist x) with h' | h'
      · right
        rw [h']
        exact ⟨List.mem_cons_self x rest, rfl⟩
      · right
        exact ⟨List.mem_cons_of_mem x h'.1, h'.2⟩
    · simp only [h, if_neg, not_false_iff]
      rcases ih acc with h' | h'
      · left; exact h'
      · right; exact ⟨List.mem_cons_of_mem x h'.1, h'.2⟩

theorem scanAux_find (dist : α → ℚ) :
    ∀ (l : List α) (b0 : α),
      (b0 :: l).find? (fun x => decide (dist x = (scanAux dist l (b0, dist b0)).2)) =
        some (scanAux dist l (b0, dist b0)).1 := by
  intro l
  induction l with
  | nil =>
    intro b0
    simp [scanAux, List.find?_cons]
  | cons c rest ih =>
    intro b0
    simp only [scanAux]
    by_cases h : dist c < dist b0
    · simp only [h, if_pos]
      have hle : (scanAux dist rest (c, dist c)).2 ≤ dist c := scanAux_snd_le dist rest _
      have hne : ¬ (dist b0 = (scanAux dist rest (c, dist c)).2) := by
        intro he
        exact absurd (lt_of_le_of_lt (he ▸ hle) h) (lt_irrefl _)
      rw [List.find?_cons_of_neg _ (by simpa using hne)]
      exact ih c
    · simp only [h, if_neg, not_false_iff]
      have hle : (scanAux dist rest (b0, dist b0)).2 ≤ dist b0 := scanAux_snd_le dist rest _
      have hcb : dist b0 ≤ dist c := le_of_not_lt h
      by_cases he : dist b0 = (scanAux dist rest (b0, dist b0)).2
      · have hhead := ih b0
        rw [List.find?_cons_of_pos _ (by simpa using he)] at hhead
        rw [List.find?_cons_of_pos _ (by simpa using he)]
        exact hhead
      · have htail := ih b0
        rw [List.find?_cons_of_neg _ (by simpa using he)] at htail
        rw [List.find?_cons_of_neg _ (by simpa using he)]
        rw [List.find?_cons_of_neg]
        · exact htail
        · simp only [decide_eq_true_eq]
          intro hc
          have h1 : dist b0 ≤ (scanAux dist rest (b0, dist b0)).2 := hc ▸ hcb
          exact he (le_antisymm h1 hle)

theorem closest_scan_spec (dist : α → ℚ) (l : List α) (b : α) (d : ℚ)
    (h : closest_scan dist l = some (b, d)) :
    b ∈ l ∧ d = dist b ∧ (∀ x ∈ l, d ≤ dist x) ∧
      l.find? (fun x => decide (dist x = d)) = some b := by
  match l with
  | [] => simp [closest_scan] at h
  | x :: rest =>
    simp only [closest_scan, Option.some_inj] at h
    have hmem := scanAux_mem dist rest (x, dist x)
    have hb : b = (scanAux dist rest (x, dist x)).1 := by rw [h]
    have hd : d = (scanAux dist rest (x, dist x)).2 := by rw [h]
    refine ⟨?_, ?_, ?_, ?_⟩
    · rcases hmem with h' | h'
      · rw [hb, h']
        exact List.mem_cons_self x rest
      · exact hb ▸ List.mem_cons_of_mem x h'.1
    · rcases hmem with h' | h'
      · rw [hb, hd, h']
      · rw [hb, hd, h'.2]
    · intro y hy
      rcases List.mem_cons.mp hy with h' | h'
      · subst h'
        exact hd ▸ scanAux_snd_le dist rest (y, dist y)
      · exact hd ▸ scanAux_min dist rest (x, dist x) y h'
    · rw [hb, hd]
      exact scanAux_find dist rest x

/-! ## Lemmas about the best-score scan -/

theorem bestAux_le (score : α → ℚ) (l : List α) (acc : Option α × ℚ) :
    acc.2 ≤ (bestAux score l acc).2 := by
  induction l generalizing acc with
  | nil => simp [bestAux]
  | cons x rest ih =>
    simp only [bestAux]
    refine le_trans ?_ (ih _)
    by_cases h : score x > acc.2
    · simp [h, le_of_lt h]
    · simp [h]

theorem bestAux_ge_all (score : α → ℚ) (l : List α) (acc : Option α × ℚ) :
    ∀ x ∈ l, score x ≤ (bestAux score l acc).2 := by
  induction l generalizing acc with
  | nil => simp
  | cons y rest ih =>
    intro x hx
    simp only [bestAux]
    rcases List.mem_cons.mp hx with h | h
    · subst h
      refine le_trans ?_ (bestAux_le score rest _)
      by_cases h : score x > acc.2
      · simp [h]
      · simp [h]
        exact le_of_not_lt h
    · exact ih _ x h

theorem bestAux_cases (score : α → ℚ) (l : List α) (acc : Option α × ℚ) :
    bestAux score l acc = acc ∨ ∃ x ∈ l, bestAux score l acc = (some x, score x) := by
  induction l generalizing acc with
  | nil => left; simp [bestAux]
  | cons y rest ih =>
    simp only [bestAux]
    by_cases h : score y > acc.2
    · simp only [h, if_pos]
      rcases ih (some y, score y) with h' | h'
      · right
        exact ⟨y, List.mem_cons_self y rest, h'⟩
      · rcases h' with ⟨x, hx, hx'⟩
        right
        exact ⟨x, List.mem_cons_of_mem y hx, hx'⟩
    · simp only [h, if_neg, not_false_iff]
      rcases ih acc with h' | h'
      · left; exact h'
      · rcases h' with ⟨x, hx, hx'⟩
        right
        exact ⟨x, List.mem_cons_of_mem y hx, hx'⟩

theorem best_pair_gt_iff (score : α → ℚ) (l : List α) (t : ℚ) (ht : 0 ≤ t) :
    t < (best_pair score l).2 ↔ ∃ x ∈ l, t < score x := by
  constructor
  · intro h
    rcases bestAux_cases score l (none, 0) with h' | h'
    · rw [best_pair, h'] at h
      exact absurd h (not_lt_of_le ht)
    · rcases h' with ⟨x, hx, hx'⟩
      rw [best_pair, hx'] at h
      exact ⟨x, hx, h⟩
  · rintro ⟨x, hx, hx'⟩
    exact lt_of_lt_of_le hx' (bestAux_ge_all score l (none, 0) x hx)

theorem best_pair_ge_iff (score : α → ℚ) (l : List α) (t : ℚ) (ht : 0 < t) :
    t ≤ (best_pair score l).2 ↔ ∃ x ∈ l, t ≤ score x := by
  constructor
  · intro h
    rcases bestAux_cases score l (none, 0) with h' | h'
    · rw [best_pair, h'] at h
      exact absurd (lt_of_lt_of_le ht h) (lt_irrefl 0)
    · rcases h' with ⟨x, hx, hx'⟩
      rw [best_pair, hx'] at h
      exact ⟨x, hx, h⟩
  · rintro ⟨x, hx, hx'⟩
    exact le_trans hx' (bestAux_ge_all score l (none, 0) x hx)

theorem best_pair_none (score : α → ℚ) (l : List α) (s : ℚ)
    (h : best_pair score l = (none, s)) : s = 0 := by
  rcases bestAux_cases score l (none, 0) with h' | h'
  · rw [best_pair, h'] at h
    have h2 := congrArg Prod.snd h
    simpa using h2.symm
  · rcases h' with ⟨x, _, hx'⟩
    rw [best_pair, hx'] at h
    have h1 := congrArg Prod.fst h
    simp at h1

theorem best_pair_some_attained (score : α → ℚ) (l : List α) (x : α) (s : ℚ)
    (h : best_pair score l = (some x, s)) : x ∈ l ∧ s = score x := by
  rcases bestAux_cases score l (none, 0) with h' | h'
  · rw [best_pair, h'] at h
    have h1 := congrArg Prod.fst h
    simp at h1
  · rcases h' with ⟨y, hy, hy'⟩
    rw [best_pair, hy'] at h
    have h1 := congrArg Prod.fst h
    have h2 := congrArg Prod.snd h
    simp only [Prod.fst, Prod.snd] at h1 h2
    cases Option.some_inj.mp h1
    exact ⟨hy, h2.symm⟩

/-! ## Claim C9 -/

/-- C9: for every pair of coordinate points, `haversine_distance` is
symmetric in its two points, and the distance from a point to itself is 0
(exact equalities in the real-number reading of the float formula). -/
theorem haversine_symm_and_self_zero :
    (∀ lat1 lon1 lat2 lon2 : ℝ,
        haversine_distance lat1 lon1 lat2 lon2 = haversine_distance lat2 lon2 lat1 lon1) ∧
    (∀ lat lon : ℝ, haversine_distance lat lon lat lon = 0) := by
  have key : ∀ x y : ℝ, Real.sin ((x - y) / 2) ^ 2 = Real.sin ((y - x) / 2) ^ 2 := by
    intro x y
    rw [show (x - y) / 2 = -((y - x) / 2) by ring, Real.sin_neg, neg_sq]
  constructor
  · intro lat1 lon1 lat2 lon2
    simp only [haversine_distance]
    rw [key (radiansR lat2) (radiansR lat1), key (radiansR lon2) (radiansR lon1),
      mul_comm (Real.cos (radiansR lat1)) (Real.cos (radiansR lat2))]
  · intro lat lon
    simp [haversine_distance]

/-! ## Claim C5 -/

/-- C5 (code behaviour at the failing input): with an empty external
collection the run of analyze-connected-overlap.py produces no matches, and
the overlap-percentage expression `len(matches) / len(connected_carparks) *
100` raises `ZeroDivisionError` instead of reporting "N/A". -/
theorem empty_collection_zero_division (sim : Str → Str → ℚ) (rows : List DbRow) :
    (ovProcess sim (db_names rows) []).1 = [] ∧
    overlap_percentage sim rows [] = Except.error PyErr.zeroDivision := by
  constructor
  · simp [ovProcess]
  · simp [overlap_percentage, ovProcess, pyDiv, Except.map]

/-! ## Claim C3 -/

/-- C3 counterexample: `coord_matches` in analyze-matching-methods.py takes
the FIRST canonical record within 100 m in collection order, here the record
at 50 m, although another canonical record is at 10 m — so the proximity
candidate is not at the minimum great-circle distance, contrary to the
claim. -/
theorem proximity_first_hit_not_minimum :
    coordMatchOne exDist3 [exDbA, exDbB] exConn3 = some exDbA ∧
    connDist exDist3 exConn3 exDbA = 50 ∧
    connDist exDist3 exConn3 exDbB = 10 ∧
    exDbB ∈ [exDbA, exDbB] ∧ exDbA ≠ exDbB := by decide

/-- C3 amended: the minimum-based variant (`closest_match` in
analyze-connected-overlap-coords.py) returns a candidate at the minimum
distance, ties resolving to the first canonical record in collection order,
and produces a candidate iff the minimum is ≤ 100 m; the first-hit variant
(`coord_matches` in analyze-matching-methods.py) produces a candidate iff
some canonical record is within 100 m (equivalently, iff the minimum is
≤ 100 m), but its candidate is the first record within the threshold in
collection order, not necessarily one attaining the minimum. -/
theorem proximity_minimum_spec (dist : ℚ → ℚ → ℚ → ℚ → ℚ) (dbs : List DbCp)
    (conn : ConnCp) :
    (∀ db d, proximityCandidate dist dbs conn = some (db, d) →
        db ∈ dbs ∧ d = connDist dist conn db ∧ d ≤ 100 ∧
        (∀ x ∈ dbs, d ≤ connDist dist conn x) ∧
        dbs.find? (fun x => decide (connDist dist conn x = d)) = some db) ∧
    ((proximityCandidate dist dbs conn).isSome ↔
        ∃ db ∈ dbs, connDist dist conn db ≤ 100) ∧
    (∀ db, coordMatchOne dist dbs conn = some db →
        db ∈ dbs ∧ connDist dist conn db ≤ 100 ∧
        ∀ x ∈ dbs, connDist dist conn x ≤ 100 →
          dbs.find? (fun y => decide (connDist dist conn y ≤ 100)) = some db) ∧
    ((coordMatchOne dist dbs conn).isSome ↔
        ∃ db ∈ dbs, connDist dist conn db ≤ 100) := by
  refine ⟨?_, ?_, ?_, ?_⟩
  · intro db d h
    simp only [proximityCandidate] at h
    rcases hc : closest_match dist dbs conn with _ | ⟨b, d0⟩
    · rw [hc] at h
      exact absurd h (by simp)
    · rw [hc] at h
      dsimp only at h
      by_cases hle : d0 ≤ 100
      · rw [if_pos hle] at h
        have h1 : b = db ∧ d0 = d := by
          constructor <;> [exact congrArg (fun p => (Option.getD p (db, d)).1) h;
            exact congrArg (fun p => (Option.getD p (db, d)).2) h]
        rcases h1 with ⟨rfl, rfl⟩
        have spec := closest_scan_spec (connDist dist conn) dbs b d0 hc
        exact ⟨spec.1, spec.2.1, hle, spec.2.2.1, spec.2.2.2⟩
      · rw [if_neg hle] at h
        exact absurd h (by simp)
  · constructor
    · intro h
      rcases ho : proximityCandidate dist dbs conn with _ | ⟨db, d⟩
      · rw [ho] at h; simp at h
      · simp only [proximityCandidate] at ho
        rcases hc : closest_match dist dbs conn with _ | ⟨b, d0⟩
        · rw [hc] at ho
          exact absurd ho (by simp)
        · rw [hc] at ho
          dsimp only at ho
          by_cases hle : d0 ≤ 100
          · have spec := closest_scan_spec (connDist dist conn) dbs b d0 hc
            exact ⟨b, spec.1, spec.2.1 ▸ hle⟩
          · rw [if_neg hle] at ho
            exact absurd ho (by simp)
    · rintro ⟨db, hdb, hle⟩
      rcases hc : closest_match dist dbs conn with _ | ⟨b, d0⟩
      · cases dbs with
        | nil => cases hdb
        | cons x rest => simp [closest_match, closest_scan] at hc
      · have spec := closest_scan_spec (connDist dist conn) dbs b d0 hc
        have hd0 : d0 ≤ 100 := le_trans (spec.2.2.1 db hdb) hle
        simp [proximityCandidate, hc, hd0]
  · intro db h
    simp only [coordMatchOne] at h
    refine ⟨List.mem_of_find?_eq_some h, ?_, ?_⟩
    · have := List.find?_some h
      simpa using this
    · intro x _ _
      exact h
  · simp only [coordMatchOne]
    constructor
    · intro h
      rcases Option.isSome_iff_exists.mp h with ⟨db, hdb⟩
      refine ⟨db, List.mem_of_find?_eq_some hdb, ?_⟩
      have := List.find?_some hdb
      simpa using this
    · rintro ⟨db, hdb, hle⟩
      rcases hf : List.find? (fun db => decide (connDist dist conn db ≤ 100)) dbs with _ | ⟨y⟩
      · rw [List.find?_eq_none] at hf
        exact absurd (by simpa using hle) (hf db hdb)
      · simp

/-- C3 witness: the amended statement applied at a concrete input — the
minimum-based variant picks the 10 m record (second in collection order)
over the 50 m record, and both variants report a candidate. -/
theorem proximity_minimum_spec_witness :
    ((exDbB ∈ [exDbA, exDbB] ∧ (10 : ℚ) = connDist exDist3 exConn3 exDbB ∧
        (10 : ℚ) ≤ 100 ∧ (∀ x ∈ [exDbA, exDbB], (10 : ℚ) ≤ connDist exDist3 exConn3 x) ∧
        [exDbA, exDbB].find? (fun x => decide (connDist exDist3 exConn3 x = 10)) =
          some exDbB)) ∧
    ((proximityCandidate exDist3 [exDbA, exDbB] exConn3).isSome ↔
        ∃ db ∈ [exDbA, exDbB], connDist exDist3 exConn3 db ≤ 100) :=
  ⟨(proximity_minimum_spec exDist3 [exDbA, exDbB] exConn3).1 exDbB 10 (by decide),
   (proximity_minimum_spec exDist3 [exDbA, exDbB] exConn3).2.1⟩

/-! ## Helper lemmas for evaluating score loops at concrete inputs
(the `Rat` arithmetic operations are irreducible, so concrete runs are
evaluated by rewriting rather than by kernel computation) -/

theorem bestAux_id_of_no_gt (score : α → ℚ) (l : List α) (acc : Option α × ℚ)
    (h : ∀ x ∈ l, ¬ acc.2 < score x) : bestAux score l acc = acc := by
  induction l with
  | nil => simp [bestAux]
  | cons x rest ih =>
    simp only [bestAux]
    have hx : ¬ score x > acc.2 := h x (List.mem_cons_self x rest)
    rw [if_neg hx]
    exact ih (fun y hy => h y (List.mem_cons_of_mem x hy))

theorem best_pair_singleton_pos (score : α → ℚ) (x : α) (h : 0 < score x) :
    best_pair score [x] = (some x, score x) := by
  simp [best_pair, bestAux, h]

theorem phase2Step_id_of_zero (sim : Str → Str → ℚ) (dbs : List DbCp)
    (m : List Entry) (conn : ConnCp)
    (h : ∀ db ∈ dbs, combined_score sim conn db = 0) :
    phase2Step sim dbs m conn = m := by
  have hbp : best_pair (combined_score sim conn) dbs = (none, 0) := by
    refine bestAux_id_of_no_gt _ dbs (none, 0) ?_
    intro x hx
    rw [h x hx]
    exact lt_irrefl 0
  simp [phase2Step, hbp]

theorem phase2_id_of_zero (sim : Str → Str → ℚ) (dbs : List DbCp)
    (conns : List ConnCp) (m : List Entry)
    (h : ∀ conn ∈ conns, ∀ db ∈ dbs, combined_score sim conn db = 0) :
    phase2 sim dbs conns m = m := by
  induction conns generalizing m with
  | nil => simp [phase2]
  | cons c rest ih =>
    simp only [phase2, List.foldl_cons]
    rw [phase2Step_id_of_zero sim dbs m c (h c (List.mem_cons_self c rest))]
    exact ih m (fun conn hc => h conn (List.mem_cons_of_mem c hc))

/-! ## Claim C4 -/

/-- C4 counterexample: with every similarity 0.6 the best combined score of
the name-led variant is exactly 0.6, yet the record lands in
`unmatched_connected` — the source tests `best_score > 0.6` strictly,
so a best score of exactly 0.6 is rejected, contrary to the claim.
(`SequenceMatcher.ratio` realizes 0.6 on e.g. "abcxx" vs "abcyy".) -/
theorem lexical_exact_threshold_rejected :
    ovScore constSim exConnRow4 (str "beta", exDbRow4) = 3 / 5 ∧
    ovMatchOne constSim (db_names [exDbRow4]) exConnRow4 =
      Sum.inr { name := str "alpha", address := str "x",
                best_match_name := some (str "beta"), score := 3 / 5 } := by
  have hdbn : db_names [exDbRow4] = [(str "beta", exDbRow4)] := by decide
  have hsc : ovScore constSim exConnRow4 (str "beta", exDbRow4) = 3 / 5 := by
    simp only [ovScore, similarity, constSim]
    rw [if_pos (by decide : exConnRow4.address ≠ [] ∧ (str "beta", exDbRow4).2.addr ≠ [])]
    norm_num
  refine ⟨hsc, ?_⟩
  have hbp : best_pair (ovScore constSim exConnRow4) [(str "beta", exDbRow4)] =
      (some (str "beta", exDbRow4), 3 / 5) := by
    rw [best_pair_singleton_pos _ _ (by rw [hsc]; norm_num), hsc]
  have hfind : ([(str "beta", exDbRow4)] : List (Str × DbRow)).find?
      (fun p => decide (p.1 = lowerStr exConnRow4.name)) = none := by decide
  simp only [ovMatchOne, hdbn, hfind, hbp]
  rw [if_neg (by norm_num : ¬ (3 / 5 : ℚ) > 3 / 5)]
  rfl

/-- C4 amended: both lexical variants compute the combined score against
every canonical record and keep the maximum, but the acceptance tests differ
from the claim for the name-led variant: the address-led variant
(analyze-matching-methods.py) accepts iff the maximum is ≥ 0.7, while the
name-led variant (analyze-connected-overlap.py) accepts iff the maximum is
STRICTLY greater than 0.6 — a best score of exactly 0.6 is rejected. -/
theorem lexical_threshold_spec (sim : Str → Str → ℚ) :
    (∀ (dbs : List DbCp) (conn : ConnCp) (m : AddrMatch),
        addrMatchOne sim dbs conn = some m →
        7 / 10 ≤ m.score ∧ (∀ db ∈ dbs, combined_score sim conn db ≤ m.score) ∧
        ∃ db ∈ dbs, combined_score sim conn db = m.score) ∧
    (∀ (dbs : List DbCp) (conn : ConnCp),
        (addrMatchOne sim dbs conn).isSome ↔
          ∃ db ∈ dbs, 7 / 10 ≤ combined_score sim conn db) ∧
    (∀ (dbn : List (Str × DbRow)) (conn : ConnRow),
        dbn.find? (fun p => decide (p.1 = lowerStr conn.name)) = none →
        ((∃ mt, ovMatchOne sim dbn conn = Sum.inl mt) ↔
          ∃ p ∈ dbn, 3 / 5 < ovScore sim conn p)) := by
  refine ⟨?_, ?_, ?_⟩
  · intro dbs conn m h
    simp only [addrMatchOne] at h
    rcases hbp : best_pair (combined_score sim conn) dbs with ⟨b, s⟩
    rw [hbp] at h
    cases b with
    | none => dsimp only at h; exact absurd h (by simp)
    | some db =>
      dsimp only at h
      by_cases hle : s ≥ 7 / 10
      · rw [if_pos hle] at h
        have hm := Option.some_inj.mp h
        have hscore : m.score = s := by rw [← hm]
        have hsnd : (best_pair (combined_score sim conn) dbs).2 = s := by rw [hbp]
        have hatt := best_pair_some_attained (combined_score sim conn) dbs db s hbp
        refine ⟨hscore ▸ hle, ?_, ?_⟩
        · intro x hx
          have := bestAux_ge_all (combined_score sim conn) dbs (none, 0) x hx
          rw [← best_pair, hsnd] at this
          exact hscore ▸ this
        · exact ⟨db, hatt.1, hscore ▸ hatt.2.symm⟩
      · rw [if_neg hle] at h
        exact absurd h (by simp)
  · intro dbs conn
    constructor
    · intro h
      rcases Option.isSome_iff_exists.mp h with ⟨m, hm⟩
      simp only [addrMatchOne] at hm
      rcases hbp : best_pair (combined_score sim conn) dbs with ⟨b, s⟩
      rw [hbp] at hm
      cases b with
      | none => dsimp only at hm; exact absurd hm (by simp)
      | some db =>
        dsimp only at hm
        by_cases hle : s ≥ 7 / 10
        · have hatt := best_pair_some_attained (combined_score sim conn) dbs db s hbp
          exact ⟨db, hatt.1, hatt.2 ▸ hle⟩
        · rw [if_neg hle] at hm
          exact absurd hm (by simp)
    · rintro ⟨db, hdb, hge⟩
      have hsnd : 7 / 10 ≤ (best_pair (combined_score sim conn) dbs).2 :=
        (best_pair_ge_iff (combined_score sim conn) dbs (7 / 10) (by norm_num)).mpr
          ⟨db, hdb, hge⟩
      rcases hbp : best_pair (combined_score sim conn) dbs with ⟨b, s⟩
      rw [hbp] at hsnd
      cases b with
      | none =>
        have := best_pair_none (combined_score sim conn) dbs s hbp
        rw [this] at hsnd
        norm_num at hsnd
      | some p =>
        simp only [addrMatchOne]
        rw [hbp]
        dsimp only
        rw [if_pos hsnd]
        simp
  · intro dbn conn hnone
    simp only [ovMatchOne, hnone]
    rcases hbp : best_pair (ovScore sim conn) dbn with ⟨b, s⟩
    cases b with
    | none =>
      dsimp only
      have hs := best_pair_none (ovScore sim conn) dbn s hbp
      constructor
      · rintro ⟨mt, hmt⟩
        exact absurd hmt (by simp)
      · rintro ⟨p, hp, hgt⟩
        have : 3 / 5 < (best_pair (ovScore sim conn) dbn).2 :=
          (best_pair_gt_iff (ovScore sim conn) dbn (3 / 5) (by norm_num)).mpr ⟨p, hp, hgt⟩
        rw [hbp, hs] at this
        norm_num at this
    | some p =>
      dsimp only
      by_cases hgt : s > 3 / 5
      · rw [if_pos hgt]
        constructor
        · intro _
          have hsnd : 3 / 5 < (best_pair (ovScore sim conn) dbn).2 := by rw [hbp]; exact hgt
          exact (best_pair_gt_iff (ovScore sim conn) dbn (3 / 5) (by norm_num)).mp hsnd
        · intro _
          exact ⟨_, rfl⟩
      · rw [if_neg hgt]
        constructor
        · rintro ⟨mt, hmt⟩
          exact absurd hmt (by simp)
        · rintro ⟨q, hq, hq'⟩
          have hsnd : 3 / 5 < (best_pair (ovScore sim conn) dbn).2 :=
            (best_pair_gt_iff (ovScore sim conn) dbn (3 / 5) (by norm_num)).mpr ⟨q, hq, hq'⟩
          rw [hbp] at hsnd
          exact absurd hsnd hgt

/-- C4 witness: the amended statement applied at concrete inputs — an
address-led acceptance whose best score is exactly the 0.7 threshold, and the
name-led acceptance test instantiated where no exact name match exists. -/
theorem lexical_threshold_spec_witness :
    ((7 : ℚ) / 10 ≤ 7 / 10 ∧
      (∀ db ∈ [exDb4b], combined_score eqSim exConn4b db ≤ 7 / 10) ∧
      ∃ db ∈ [exDb4b], combined_score eqSim exConn4b db = 7 / 10) ∧
    ((∃ mt, ovMatchOne eqSim (db_names [exDbRow4]) exConnRow4 = Sum.inl mt) ↔
      ∃ p ∈ db_names [exDbRow4], 3 / 5 < ovScore eqSim exConnRow4 p) := by
  constructor
  · have hcs : combined_score eqSim exConn4b exDb4b = 7 / 10 := by
      simp only [combined_score, address_similarity, eqSim]
      rw [if_pos (by decide :
            normalize_address exConn4b.address = normalize_address exDb4b.addr),
          if_neg (by decide : ¬ lowerStr exConn4b.name = lowerStr exDb4b.name)]
      norm_num
    have hbp : best_pair (combined_score eqSim exConn4b) [exDb4b] =
        (some exDb4b, 7 / 10) := by
      rw [best_pair_singleton_pos _ _ (by rw [hcs]; norm_num), hcs]
    have hm : addrMatchOne eqSim [exDb4b] exConn4b = some
        { connected_name := str "n1", connected_addr := str "same addr",
          db_name := str "n2", db_addr := str "same addr", park_id := 11,
          score := 7 / 10 } := by
      simp only [addrMatchOne, hbp]
      rw [if_pos (by norm_num : (7 : ℚ) / 10 ≥ 7 / 10)]
      rfl
    exact (lexical_threshold_spec eqSim).1 [exDb4b] exConn4b _ hm
  · exact (lexical_threshold_spec eqSim).2.2 (db_names [exDbRow4]) exConnRow4 (by decide)

/-! ## Claim C7 -/

/-- C7 counterexample: the address-led variant (analyze-matching-methods.py)
has no exact-name short-circuit — an external record whose name equals a
canonical name case-insensitively, but whose address is disjoint, scores
0 · 0.7 + 1 · 0.3 = 0.3 < 0.7 and is NOT accepted, contrary to the claim
that the short-circuit holds in both variants. -/
theorem exact_name_no_short_circuit_addr_led :
    lowerStr exConn7.name = lowerStr exDb7.name ∧
    addrMatchOne eqSim [exDb7] exConn7 = none := by
  constructor
  · decide
  · have hcs : combined_score eqSim exConn7 exDb7 = 3 / 10 := by
      simp only [combined_score, address_similarity, eqSim]
      rw [if_neg (by decide :
            ¬ normalize_address exConn7.address = normalize_address exDb7.addr),
          if_pos (by decide : lowerStr exConn7.name = lowerStr exDb7.name)]
      norm_num
    have hbp : best_pair (combined_score eqSim exConn7) [exDb7] =
        (some exDb7, 3 / 10) := by
      rw [best_pair_singleton_pos _ _ (by rw [hcs]; norm_num), hcs]
    simp only [addrMatchOne, hbp]
    rw [if_neg (by norm_num : ¬ (3 : ℚ) / 10 ≥ 7 / 10)]

/-- C7 amended: the exact case-insensitive full-name short-circuit holds for
the name-led lexical variant only (analyze-connected-overlap.py): whenever
the lowered external name is a key of the `db_names` dictionary, the record
is immediately accepted as an exact match, bypassing the scoring loop,
whatever the addresses and whatever the similarity collaborator; the
address-led variant has no such short-circuit. -/
theorem exact_name_short_circuit_name_led (sim : Str → Str → ℚ)
    (dbn : List (Str × DbRow)) (conn : ConnRow) (p : Str × DbRow)
    (h : dbn.find? (fun q => decide (q.1 = lowerStr conn.name)) = some p) :
    ovMatchOne sim dbn conn =
      Sum.inl { connected_name := conn.name, db_name := p.2.name,
                park_id := p.2.park_id, mtype := MatchType.exact } := by
  simp [ovMatchOne, h]

/-- C7 witness: the short-circuit applied at the spec's own scenario —
external name "Central Car Park" against canonical name "CENTRAL CAR PARK"
(same case-folded string) with completely different addresses and a
similarity collaborator that scores everything 0. -/
theorem exact_name_short_circuit_name_led_witness :
    ovMatchOne zeroSim (db_names [exDbRow7]) exConnRow7 =
      Sum.inl { connected_name := str "Central Car Park",
                db_name := str "CENTRAL CAR PARK", park_id := 8,
                mtype := MatchType.exact } :=
  exact_name_short_circuit_name_led zeroSim (db_names [exDbRow7]) exConnRow7
    (lowerStr (str "CENTRAL CAR PARK"), exDbRow7) (by decide)

/-! ## Claim C6 -/

/-- C6 counterexample: with one footprint whose reprojection fails, the
containment method produces NO candidate even for the external record inside
the footprint that reprojected successfully (second conjunct shows the same
run with only the good footprint does produce that candidate) — contrary to
the claim that only the failing footprint is dropped. -/
theorem reprojection_failure_drops_good_footprint :
    polygon_matches exTrBad exCtn6 [exGoodFeat, exBadFeat] [exConn6] [exDb6] = [] ∧
    polygon_matches exTrBad exCtn6 [exGoodFeat] [exConn6] [exDb6] =
      [{ connected_name := str "P", db_name := str "Q", park_id := 3,
         building_id := 1, building_name_en := none, building_name_tc := none }] := by
  decide

/-- C6 amended: features with missing or non-Polygon geometry are skipped
individually and processing continues, but a reprojection failure raises out
of the whole `try:` block: if the building list was built successfully then
every polygon feature reprojected successfully, and if any reprojection
failed then the containment method is abandoned wholesale — it produces no
candidate for ANY external record (and the aggregate script's third phase
leaves `all_matches` untouched). -/
theorem reprojection_failure_aborts_method (tr : ℚ × ℚ → Except Unit (ℚ × ℚ))
    (ctn : Building → ℚ × ℚ → Bool) :
    (∀ (f : Feature) (fs : List Feature), f.geometry = none →
        buildBuildings tr (f :: fs) = buildBuildings tr fs) ∧
    (∀ (f : Feature) (g : Geom) (fs : List Feature), f.geometry = some g →
        g.gtype ≠ str "Polygon" → buildBuildings tr (f :: fs) = buildBuildings tr fs) ∧
    (∀ (features : List Feature) (bs : List Building),
        buildBuildings tr features = Except.ok bs →
        ∀ f ∈ features, ∀ g, f.geometry = some g → g.gtype = str "Polygon" →
          ∃ ring rest wgs, g.rings = ring :: rest ∧ ring.mapM tr = Except.ok wgs) ∧
    (∀ (features : List Feature) (conns : List ConnCp) (dbs : List DbCp) (e : Unit),
        buildBuildings tr features = Except.error e →
        polygon_matches tr ctn features conns dbs = []) ∧
    (∀ (features : List Feature) (conns : List ConnCp) (dbs : List DbCp)
        (m : List Entry) (e : Unit),
        buildBuildings tr features = Except.error e →
        phase3 (buildBuildings tr features) ctn dbs conns m = m) := by
  refine ⟨?_, ?_, ?_, ?_, ?_⟩
  · intro f fs h
    simp [buildBuildings, h]
  · intro f g fs h hg
    simp [buildBuildings, h, hg]
  · intro features
    induction features with
    | nil => intro bs _ f hf; cases hf
    | cons f0 fs ih =>
      intro bs hok f hf g hgeom hpoly
      rcases List.mem_cons.mp hf with rfl | hmem
      · rw [buildBuildings, hgeom] at hok
        dsimp only at hok
        rw [if_pos hpoly] at hok
        rcases hr : g.rings with _ | ⟨ring, rest⟩
        · rw [hr] at hok
          exact absurd hok (by simp)
        · rw [hr] at hok
          dsimp only at hok
          rcases hm : ring.mapM tr with e' | wgs
          · rw [hm] at hok
            exact absurd hok (by simp)
          · exact ⟨ring, rest, wgs, rfl, hm⟩
      · have hok' : ∃ bs', buildBuildings tr fs = Except.ok bs' := by
          rw [buildBuildings] at hok
          rcases hgeom0 : f0.geometry with _ | g0
          · rw [hgeom0] at hok
            dsimp only at hok
            exact ⟨bs, hok⟩
          · rw [hgeom0] at hok
            dsimp only at hok
            by_cases hp0 : g0.gtype = str "Polygon"
            · rw [if_pos hp0] at hok
              rcases hr0 : g0.rings with _ | ⟨ring0, rest0⟩
              · rw [hr0] at hok
                exact absurd hok (by simp)
              · rw [hr0] at hok
                dsimp only at hok
                rcases hm0 : ring0.mapM tr with e0 | wgs0
                · rw [hm0] at hok
                  exact absurd hok (by simp)
                · rw [hm0] at hok
                  rcases hrec : buildBuildings tr fs with e1 | bs1
                  · rw [hrec] at hok
                    exact absurd hok (by simp [Except.map])
                  · exact ⟨bs1, rfl⟩
            · rw [if_neg hp0] at hok
              exact ⟨bs, hok⟩
        rcases hok' with ⟨bs', hok'⟩
        exact ih bs' hok' f hmem g hgeom hpoly
  · intro features conns dbs e h
    simp [polygon_matches, h]
  · intro features conns dbs m e h
    simp [phase3, h]

/-- C6 witness: the amended statement applied at concrete inputs — a feature
with no geometry is skipped individually, while the bad footprint's
reprojection failure empties the whole containment method and leaves the
aggregate dictionary untouched. -/
theorem reprojection_failure_aborts_method_witness :
    (buildBuildings exTrBad (exNoGeomFeat :: [exGoodFeat]) =
      buildBuildings exTrBad [exGoodFeat]) ∧
    polygon_matches exTrBad exCtn6 [exBadFeat] [exConn6] [exDb6] = [] ∧
    phase3 (buildBuildings exTrBad [exBadFeat]) exCtn6 [exDb6] [exConn6] [] = [] :=
  ⟨(reprojection_failure_aborts_method exTrBad exCtn6).1 exNoGeomFeat [exGoodFeat] rfl,
   (reprojection_failure_aborts_method exTrBad exCtn6).2.2.2.1 [exBadFeat] [exConn6]
     [exDb6] () (by rfl),
   (reprojection_failure_aborts_method exTrBad exCtn6).2.2.2.2 [exBadFeat] [exConn6]
     [exDb6] [] () (by rfl)⟩

/-! ## Lemmas about the `all_matches` dictionary operations -/

theorem lookupEntry_eq_none_iff (m : List Entry) (n : Str) :
    lookupEntry m n = none ↔ ∀ e ∈ m, e.connected_name ≠ n := by
  simp [lookupEntry, List.find?_eq_none]

theorem lookupEntry_some_props (m : List Entry) (n : Str) (e : Entry)
    (h : lookupEntry m n = some e) : e ∈ m ∧ e.connected_name = n := by
  refine ⟨List.mem_of_find?_eq_some h, ?_⟩
  have := List.find?_some h
  simpa using this

theorem lookupEntry_updateEntry_self (m : List Entry) (n : Str) (f : Entry → Entry)
    (hf : ∀ x, (f x).connected_name = x.connected_name) :
    lookupEntry (updateEntry m n f) n = (lookupEntry m n).map f := by
  induction m with
  | nil => rfl
  | cons e m ih =>
    by_cases h : e.connected_name = n
    · have hfe : (f e).connected_name = n := by rw [hf, h]
      simp only [updateEntry, List.map_cons, if_pos h, lookupEntry]
      rw [List.find?_cons_of_pos _ (by simpa using hfe),
        List.find?_cons_of_pos _ (by simpa using h)]
      rfl
    · simp only [updateEntry, List.map_cons, if_neg h, lookupEntry]
      rw [List.find?_cons_of_neg _ (by simpa using h),
        List.find?_cons_of_neg _ (by simpa using h)]
      exact ih

theorem lookupEntry_updateEntry_ne (m : List Entry) (n n' : Str) (f : Entry → Entry)
    (hf : ∀ x, (f x).connected_name = x.connected_name) (hne : n' ≠ n) :
    lookupEntry (updateEntry m n f) n' = lookupEntry m n' := by
  induction m with
  | nil => rfl
  | cons e m ih =>
    by_cases h : e.connected_name = n'
    · simp only [updateEntry, List.map_cons, lookupEntry]
      by_cases h2 : e.connected_name = n
      · exact absurd (h2.symm.trans h).symm hne
      · rw [if_neg h2, List.find?_cons_of_pos _ (by simpa using h),
          List.find?_cons_of_pos _ (by simpa using h)]
    · simp only [updateEntry, List.map_cons, lookupEntry]
      by_cases h2 : e.connected_name = n
      · have hfe : (f e).connected_name ≠ n' := by rw [hf]; exact h
        rw [if_pos h2, List.find?_cons_of_neg _ (by simpa using hfe),
          List.find?_cons_of_neg _ (by simpa using h)]
        exact ih
      · rw [if_neg h2, List.find?_cons_of_neg _ (by simpa using h),
          List.find?_cons_of_neg _ (by simpa using h)]
        exact ih

theorem lookupEntry_append_single (m : List Entry) (e0 : Entry) (n : Str) :
    lookupEntry (m ++ [e0]) n =
      match lookupEntry m n with
      | some e => some e
      | none => if e0.connected_name = n then some e0 else none := by
  induction m with
  | nil =>
    simp only [List.nil_append, lookupEntry, List.find?_nil]
    by_cases h : e0.connected_name = n
    · rw [List.find?_cons_of_pos _ (by simpa using h)]
      simp [h]
    · rw [List.find?_cons_of_neg _ (by simpa using h)]
      simp [h, List.find?_nil]
  | cons e m ih =>
    by_cases h : e.connected_name = n
    · simp only [List.cons_append, lookupEntry]
      rw [List.find?_cons_of_pos _ (by simpa using h),
        List.find?_cons_of_pos _ (by simpa using h)]
    · simp only [List.cons_append, lookupEntry]
      rw [List.find?_cons_of_neg _ (by simpa using h),
        List.find?_cons_of_neg _ (by simpa using h)]
      exact ih

theorem keysOf_updateEntry (m : List Entry) (n : Str) (f : Entry → Entry)
    (hf : ∀ x, (f x).connected_name = x.connected_name) :
    keysOf (updateEntry m n f) = keysOf m := by
  induction m with
  | nil => rfl
  | cons e m ih =>
    simp only [updateEntry, keysOf, List.map_cons] at *
    by_cases h : e.connected_name = n
    · rw [if_pos h, hf, ih]
    · rw [if_neg h, ih]

theorem keysOf_touch (m : List Entry) (n : Str) (init : Entry) (f : Entry → Entry)
    (hf : ∀ x, (f x).connected_name = x.connected_name)
    (hinit : init.connected_name = n) :
    keysOf (touch m n init f) =
      if (lookupEntry m n).isSome then keysOf m else keysOf m ++ [n] := by
  by_cases h : (lookupEntry m n).isSome
  · rw [touch, if_pos h, keysOf_updateEntry m n f hf, if_pos h]
  · rw [touch, if_neg h, keysOf_updateEntry _ n f hf, if_neg h]
    simp [keysOf, hinit]

theorem touch_lookup_self (m : List Entry) (n : Str) (init : Entry) (f : Entry → Entry)
    (hf : ∀ x, (f x).connected_name = x.connected_name)
    (hinit : init.connected_name = n) :
    lookupEntry (touch m n init f) n = some (f ((lookupEntry m n).getD init)) := by
  rcases hl : lookupEntry m n with _ | e
  · rw [touch, hl]
    simp only [Option.isSome_none, Bool.false_eq_true, if_false]
    rw [lookupEntry_updateEntry_self _ n f hf, lookupEntry_append_single, hl]
    simp [hinit]
  · rw [touch, hl]
    simp only [Option.isSome_some, if_true]
    rw [lookupEntry_updateEntry_self _ n f hf, hl]
    rfl

theorem touch_lookup_ne (m : List Entry) (n n' : Str) (init : Entry) (f : Entry → Entry)
    (hf : ∀ x, (f x).connected_name = x.connected_name)
    (hinit : init.connected_name = n) (hne : n' ≠ n) :
    lookupEntry (touch m n init f) n' = lookupEntry m n' := by
  rw [touch]
  by_cases h : (lookupEntry m n).isSome
  · rw [if_pos h, lookupEntry_updateEntry_ne _ n n' f hf hne]
  · rw [if_neg h, lookupEntry_updateEntry_ne _ n n' f hf hne,
      lookupEntry_append_single]
    rcases hl : lookupEntry m n' with _ | e
    · have : init.connected_name ≠ n' := by rw [hinit]; exact fun he => hne he.symm
      simp [this]
    · rfl

theorem touch_preserves (m : List Entry) (n : Str) (init : Entry) (f : Entry → Entry)
    (n' : Str) (e : Entry)
    (hfn : ∀ x, (f x).connected_name = x.connected_name)
    (hfa : ∀ x, (f x).connected_addr = x.connected_addr)
    (hfd : ∀ x, (f x).db_name = x.db_name)
    (hfi : ∀ x, (f x).park_id = x.park_id)
    (hinit : init.connected_name = n)
    (h : lookupEntry m n' = some e) :
    ∃ e', lookupEntry (touch m n init f) n' = some e' ∧
      e'.connected_name = e.connected_name ∧ e'.connected_addr = e.connected_addr ∧
      e'.db_name = e.db_name ∧ e'.park_id = e.park_id := by
  by_cases hne : n' = n
  · subst hne
    rw [touch_lookup_self m n' init f hfn hinit, h]
    exact ⟨f e, by simp, hfn e, hfa e, hfd e, hfi e⟩
  · rw [touch_lookup_ne m n n' init f hfn hinit hne]
    exact ⟨e, h, rfl, rfl, rfl, rfl⟩

theorem phase1Step_preserves (dist : ℚ → ℚ → ℚ → ℚ → ℚ) (dbs : List DbCp)
    (m : List Entry) (conn : ConnCp) (n : Str) (e : Entry)
    (h : lookupEntry m n = some e) :
    ∃ e', lookupEntry (phase1Step dist dbs m conn) n = some e' ∧
      e'.connected_name = e.connected_name ∧ e'.connected_addr = e.connected_addr ∧
      e'.db_name = e.db_name ∧ e'.park_id = e.park_id := by
  rw [phase1Step]
  rcases hf : dbs.find? (fun db => decide (connDist dist conn db ≤ 100)) with _ | db
  · exact ⟨e, h, rfl, rfl, rfl, rfl⟩
  · exact touch_preserves m conn.name _ _ n e (fun x => rfl) (fun x => rfl)
      (fun x => rfl) (fun x => rfl) rfl h

theorem phase2Step_preserves (sim : Str → Str → ℚ) (dbs : List DbCp)
    (m : List Entry) (conn : ConnCp) (n : Str) (e : Entry)
    (h : lookupEntry m n = some e) :
    ∃ e', lookupEntry (phase2Step sim dbs m conn) n = some e' ∧
      e'.connected_name = e.connected_name ∧ e'.connected_addr = e.connected_addr ∧
      e'.db_name = e.db_name ∧ e'.park_id = e.park_id := by
  rw [phase2Step]
  rcases hbp : best_pair (combined_score sim conn) dbs with ⟨b, s⟩
  cases b with
  | none => exact ⟨e, h, rfl, rfl, rfl, rfl⟩
  | some db =>
    dsimp only
    by_cases hle : s ≥ 7 / 10
    · rw [if_pos hle]
      exact touch_preserves m conn.name _ _ n e (fun x => rfl) (fun x => rfl)
        (fun x => rfl) (fun x => rfl) rfl h
    · rw [if_neg hle]
      exact ⟨e, h, rfl, rfl, rfl, rfl⟩

theorem phase3Step_preserves (ctn : Building → ℚ × ℚ → Bool) (dbs : List DbCp)
    (buildings : List Building) (m : List Entry) (conn : ConnCp) (n : Str) (e : Entry)
    (h : lookupEntry m n = some e) :
    ∃ e', lookupEntry (phase3Step ctn dbs buildings m conn) n = some e' ∧
      e'.connected_name = e.connected_name ∧ e'.connected_addr = e.connected_addr ∧
      e'.db_name = e.db_name ∧ e'.park_id = e.park_id := by
  rw [phase3Step]
  rcases hb : buildings.find? (fun b => ctn b (conn.lon, conn.lat)) with _ | bldg
  · exact ⟨e, h, rfl, rfl, rfl, rfl⟩
  · dsimp only
    rcases hd : dbs.find? (fun db => ctn bldg (db.lon, db.lat)) with _ | db
    · rw [hd]
      exact ⟨e, h, rfl, rfl, rfl, rfl⟩
    · rw [hd]
      exact touch_preserves m conn.name _ _ n e (fun x => rfl) (fun x => rfl)
        (fun x => rfl) (fun x => rfl) rfl h

theorem phase1_preserves (dist : ℚ → ℚ → ℚ → ℚ → ℚ) (dbs : List DbCp)
    (conns : List ConnCp) :
    ∀ (m : List Entry) (n : Str) (e : Entry), lookupEntry m n = some e →
      ∃ e', lookupEntry (phase1 dist dbs conns m) n = some e' ∧
        e'.connected_name = e.connected_name ∧ e'.connected_addr = e.connected_addr ∧
        e'.db_name = e.db_name ∧ e'.park_id = e.park_id := by
  induction conns with
  | nil => intro m n e h; exact ⟨e, h, rfl, rfl, rfl, rfl⟩
  | cons c rest ih =>
    intro m n e h
    rcases phase1Step_preserves dist dbs m c n e h with ⟨e1, h1, a1, a2, a3, a4⟩
    rcases ih (phase1Step dist dbs m c) n e1 h1 with ⟨e2, h2, b1, b2, b3, b4⟩
    exact ⟨e2, h2, b1.trans a1, b2.trans a2, b3.trans a3, b4.trans a4⟩

theorem phase2_preserves (sim : Str → Str → ℚ) (dbs : List DbCp)
    (conns : List ConnCp) :
    ∀ (m : List Entry) (n : Str) (e : Entry), lookupEntry m n = some e →
      ∃ e', lookupEntry (phase2 sim dbs conns m) n = some e' ∧
        e'.connected_name = e.connected_name ∧ e'.connected_addr = e.connected_addr ∧
        e'.db_name = e.db_name ∧ e'.park_id = e.park_id := by
  induction conns with
  | nil => intro m n e h; exact ⟨e, h, rfl, rfl, rfl, rfl⟩
  | cons c rest ih =>
    intro m n e h
    rcases phase2Step_preserves sim dbs m c n e h with ⟨e1, h1, a1, a2, a3, a4⟩
    rcases ih (phase2Step sim dbs m c) n e1 h1 with ⟨e2, h2, b1, b2, b3, b4⟩
    exact ⟨e2, h2, b1.trans a1, b2.trans a2, b3.trans a3, b4.trans a4⟩

theorem phase3_preserves (bres : Except Unit (List Building))
    (ctn : Building → ℚ × ℚ → Bool) (dbs : List DbCp) (conns : List ConnCp) :
    ∀ (m : List Entry) (n : Str) (e : Entry), lookupEntry m n = some e →
      ∃ e', lookupEntry (phase3 bres ctn dbs conns m) n = some e' ∧
        e'.connected_name = e.connected_name ∧ e'.connected_addr = e.connected_addr ∧
        e'.db_name = e.db_name ∧ e'.park_id = e.park_id := by
  cases bres with
  | error e0 => intro m n e h; exact ⟨e, h, rfl, rfl, rfl, rfl⟩
  | ok buildings =>
    induction conns with
    | nil => intro m n e h; exact ⟨e, h, rfl, rfl, rfl, rfl⟩
    | cons c rest ih =>
      intro m n e h
      rcases phase3Step_preserves ctn dbs buildings m c n e h with ⟨e1, h1, a1, a2, a3, a4⟩
      rcases ih (phase3Step ctn dbs buildings m c) n e1 h1 with ⟨e2, h2, b1, b2, b3, b4⟩
      exact ⟨e2, h2, b1.trans a1, b2.trans a2, b3.trans a3, b4.trans a4⟩

/-! ## Claim C2 -/

/-- C2 counterexample: the coordinate method endorses canonical record 1 and
the containment method endorses canonical record 2 for the same external
record (second conjunct: the containment method's own candidate is record 2);
the fused entry keeps `park_id = 1` — the proximity-endorsed id wins over the
containment-endorsed one, contrary to the claimed containment > proximity >
lexical priority for a one-to-one strategy tie. -/
theorem fusion_keeps_proximity_id_over_containment :
    lookupEntry (all_matches exDistC2 zeroSim exCtn2 exTrOk [exConn2]
        [exDbA2, exDbB2] [exFeatC2]) (str "X") = some
      { connected_name := str "X", connected_addr := str "x", db_name := str "A",
        park_id := 1, methods := [Method.coordinate, Method.polygon],
        coord_distance := some 50, building_name_en := some none,
        building_name_tc := some none } ∧
    polyMatchOne exCtn2
      [{ bid := 7, name_en := none, name_tc := none, polygon := [(0, 0)] }]
      [exDbA2, exDbB2] exConn2 = some
        { connected_name := str "X", db_name := str "B", park_id := 2,
          building_id := 7, building_name_en := none, building_name_tc := none } ∧
    (1 : Nat) ≠ 2 := by
  have hz : ∀ conn ∈ [exConn2], ∀ db ∈ [exDbA2, exDbB2],
      combined_score zeroSim conn db = 0 := by
    intro conn _ db _
    simp [combined_score, address_similarity, zeroSim]
  have hall : all_matches exDistC2 zeroSim exCtn2 exTrOk [exConn2]
      [exDbA2, exDbB2] [exFeatC2]
      = phase3 (buildBuildings exTrOk [exFeatC2]) exCtn2 [exDbA2, exDbB2] [exConn2]
          (phase1 exDistC2 [exDbA2, exDbB2] [exConn2] []) := by
    rw [all_matches, phase2_id_of_zero zeroSim [exDbA2, exDbB2] [exConn2] _ hz]
  refine ⟨?_, by decide, by decide⟩
  rw [hall]
  decide

/-- C2 amended: the fused canonical id for a name is the one recorded by the
earliest phase, in the fixed run order coordinate (proximity) → address
(lexical) → polygon (containment), that matched that name: once an entry
exists after phase 1 (or after phase 2), the later phases never change its
`park_id` or `db_name` — they only append provenance.  So when strategies
disagree, the run-order priority proximity > lexical > containment decides,
not agreement count, and not the claimed containment-first priority. -/
theorem all_matches_first_phase_wins (dist : ℚ → ℚ → ℚ → ℚ → ℚ)
    (sim : Str → Str → ℚ) (ctn : Building → ℚ × ℚ → Bool)
    (tr : ℚ × ℚ → Except Unit (ℚ × ℚ)) (conns : List ConnCp) (dbs : List DbCp)
    (features : List Feature) :
    (∀ (n : Str) (e : Entry), lookupEntry (phase1 dist dbs conns []) n = some e →
      ∃ e', lookupEntry (all_matches dist sim ctn tr conns dbs features) n = some e' ∧
        e'.connected_name = e.connected_name ∧ e'.connected_addr = e.connected_addr ∧
        e'.db_name = e.db_name ∧ e'.park_id = e.park_id) ∧
    (∀ (n : Str) (e : Entry),
      lookupEntry (phase2 sim dbs conns (phase1 dist dbs conns [])) n = some e →
      ∃ e', lookupEntry (all_matches dist sim ctn tr conns dbs features) n = some e' ∧
        e'.connected_name = e.connected_name ∧ e'.connected_addr = e.connected_addr ∧
        e'.db_name = e.db_name ∧ e'.park_id = e.park_id) := by
  constructor
  · intro n e h
    rcases phase2_preserves sim dbs conns (phase1 dist dbs conns []) n e h with
      ⟨e1, h1, a1, a2, a3, a4⟩
    rcases phase3_preserves (buildBuildings tr features) ctn dbs conns _ n e1 h1 with
      ⟨e2, h2, b1, b2, b3, b4⟩
    exact ⟨e2, h2, b1.trans a1, b2.trans a2, b3.trans a3, b4.trans a4⟩
  · intro n e h
    exact phase3_preserves (buildBuildings tr features) ctn dbs conns _ n e h

/-- C2 witness: the amended statement applied at a concrete input — the
entry created by the coordinate phase for name "X" (canonical record 1)
keeps its canonical id through the remaining phases. -/
theorem all_matches_first_phase_wins_witness :
    ∃ e', lookupEntry (all_matches exDistC2 zeroSim exCtn2 exTrOk [exConn2]
        [exDbA2, exDbB2] [exFeatC2]) (str "X") = some e' ∧
      e'.connected_name = str "X" ∧ e'.connected_addr = str "x" ∧
      e'.db_name = str "A" ∧ e'.park_id = 1 :=
  (all_matches_first_phase_wins exDistC2 zeroSim exCtn2 exTrOk [exConn2]
      [exDbA2, exDbB2] [exFeatC2]).1 (str "X")
    { connected_name := str "X", connected_addr := str "x", db_name := str "A",
      park_id := 1, methods := [Method.coordinate], coord_distance := some 50 }
    (by decide)

/-! ## Key lemmas for the aggregate dictionary -/

theorem nodup_of_step_keys (m : List Entry) (n : Str) (l' : List Str)
    (h : l' = keysOf m ∨ (lookupEntry m n = none ∧ l' = keysOf m ++ [n]))
    (hnd : (keysOf m).Nodup) : l'.Nodup := by
  rcases h with h | ⟨hnone, h⟩
  · rw [h]; exact hnd
  · rw [h]
    have hnotin : n ∉ keysOf m := by
      intro hmem
      rcases List.mem_map.mp hmem with ⟨e, he, hne⟩
      exact (lookupEntry_eq_none_iff m n).mp hnone e he hne
    simp [List.nodup_append, hnd, hnotin]

theorem mem_of_step_keys (m : List Entry) (n : Str) (l' : List Str)
    (h : l' = keysOf m ∨ (lookupEntry m n = none ∧ l' = keysOf m ++ [n]))
    (k : Str) (hk : k ∈ l') : k ∈ keysOf m ∨ k = n := by
  rcases h with h | ⟨_, h⟩
  · rw [h] at hk; exact Or.inl hk
  · rw [h] at hk
    rcases List.mem_append.mp hk with h' | h'
    · exact Or.inl h'
    · right; simpa using h'

theorem touch_keys_shape (m : List Entry) (n : Str) (init : Entry) (f : Entry → Entry)
    (hf : ∀ x, (f x).connected_name = x.connected_name)
    (hinit : init.connected_name = n) :
    keysOf (touch m n init f) = keysOf m ∨
      (lookupEntry m n = none ∧ keysOf (touch m n init f) = keysOf m ++ [n]) := by
  rw [keysOf_touch m n init f hf hinit]
  by_cases h : (lookupEntry m n).isSome
  · left; rw [if_pos h]
  · right
    exact ⟨Option.not_isSome_iff_eq_none.mp h, by rw [if_neg h]⟩

theorem phase1Step_keys (dist : ℚ → ℚ → ℚ → ℚ → ℚ) (dbs : List DbCp)
    (m : List Entry) (conn : ConnCp) :
    keysOf (phase1Step dist dbs m conn) = keysOf m ∨
      (lookupEntry m conn.name = none ∧
        keysOf (phase1Step dist dbs m conn) = keysOf m ++ [conn.name]) := by
  rw [phase1Step]
  rcases hf : dbs.find? (fun db => decide (connDist dist conn db ≤ 100)) with _ | db
  · left; rfl
  · exact touch_keys_shape m conn.name _ _ (fun x => rfl) rfl

theorem phase2Step_keys (sim : Str → Str → ℚ) (dbs : List DbCp)
    (m : List Entry) (conn : ConnCp) :
    keysOf (phase2Step sim dbs m conn) = keysOf m ∨
      (lookupEntry m conn.name = none ∧
        keysOf (phase2Step sim dbs m conn) = keysOf m ++ [conn.name]) := by
  rw [phase2Step]
  rcases hbp : best_pair (combined_score sim conn) dbs with ⟨b, s⟩
  cases b with
  | none => left; rfl
  | some db =>
    dsimp only
    by_cases hle : s ≥ 7 / 10
    · rw [if_pos hle]
      exact touch_keys_shape m conn.name _ _ (fun x => rfl) rfl
    · rw [if_neg hle]
      left; rfl

theorem phase3Step_keys (ctn : Building → ℚ × ℚ → Bool) (dbs : List DbCp)
    (buildings : List Building) (m : List Entry) (conn : ConnCp) :
    keysOf (phase3Step ctn dbs buildings m conn) = keysOf m ∨
      (lookupEntry m conn.name = none ∧
        keysOf (phase3Step ctn dbs buildings m conn) = keysOf m ++ [conn.name]) := by
  rw [phase3Step]
  rcases hb : buildings.find? (fun b => ctn b (conn.lon, conn.lat)) with _ | bldg
  · left; rfl
  · dsimp only
    rcases hd : dbs.find? (fun db => ctn bldg (db.lon, db.lat)) with _ | db
    · rw [hd]; left; rfl
    · rw [hd]
      exact touch_keys_shape m conn.name _ _ (fun x => rfl) rfl

theorem phase1_keys (dist : ℚ → ℚ → ℚ → ℚ → ℚ) (dbs : List DbCp)
    (conns : List ConnCp) :
    ∀ m : List Entry, (keysOf m).Nodup →
      (keysOf (phase1 dist dbs conns m)).Nodup ∧
      ∀ k ∈ keysOf (phase1 dist dbs conns m),
        k ∈ keysOf m ∨ k ∈ conns.map ConnCp.name := by
  induction conns with
  | nil => intro m hnd; exact ⟨hnd, fun k hk => Or.inl hk⟩
  | cons c rest ih =>
    intro m hnd
    have hstep := phase1Step_keys dist dbs m c
    have hnd1 := nodup_of_step_keys m c.name _ hstep hnd
    rcases ih (phase1Step dist dbs m c) hnd1 with ⟨hnd2, hsub⟩
    refine ⟨hnd2, ?_⟩
    intro k hk
    rcases hsub k hk with hk1 | hk2
    · rcases mem_of_step_keys m c.name _ hstep k hk1 with h | h
      · exact Or.inl h
      · right
        rw [List.map_cons, h]
        exact List.mem_cons_self _ _
    · right
      rw [List.map_cons]
      exact List.mem_cons_of_mem _ hk2

theorem phase2_keys (sim : Str → Str → ℚ) (dbs : List DbCp) (conns : List ConnCp) :
    ∀ m : List Entry, (keysOf m).Nodup →
      (keysOf (phase2 sim dbs conns m)).Nodup ∧
      ∀ k ∈ keysOf (phase2 sim dbs conns m),
        k ∈ keysOf m ∨ k ∈ conns.map ConnCp.name := by
  induction conns with
  | nil => intro m hnd; exact ⟨hnd, fun k hk => Or.inl hk⟩
  | cons c rest ih =>
    intro m hnd
    have hstep := phase2Step_keys sim dbs m c
    have hnd1 := nodup_of_step_keys m c.name _ hstep hnd
    rcases ih (phase2Step sim dbs m c) hnd1 with ⟨hnd2, hsub⟩
    refine ⟨hnd2, ?_⟩
    intro k hk
    rcases hsub k hk with hk1 | hk2
    · rcases mem_of_step_keys m c.name _ hstep k hk1 with h | h
      · exact Or.inl h
      · right
        rw [List.map_cons, h]
        exact List.mem_cons_self _ _
    · right
      rw [List.map_cons]
      exact List.mem_cons_of_mem _ hk2

theorem phase3_keys (bres : Except Unit (List Building))
    (ctn : Building → ℚ × ℚ → Bool) (dbs : List DbCp) (conns : List ConnCp) :
    ∀ m : List Entry, (keysOf m).Nodup →
      (keysOf (phase3 bres ctn dbs conns m)).Nodup ∧
      ∀ k ∈ keysOf (phase3 bres ctn dbs conns m),
        k ∈ keysOf m ∨ k ∈ conns.map ConnCp.name := by
  cases bres with
  | error e0 => intro m hnd; exact ⟨hnd, fun k hk => Or.inl hk⟩
  | ok buildings =>
    induction conns with
    | nil => intro m hnd; exact ⟨hnd, fun k hk => Or.inl hk⟩
    | cons c rest ih =>
      intro m hnd
      have hstep := phase3Step_keys ctn dbs buildings m c
      have hnd1 := nodup_of_step_keys m c.name _ hstep hnd
      rcases ih (phase3Step ctn dbs buildings m c) hnd1 with ⟨hnd2, hsub⟩
      refine ⟨hnd2, ?_⟩
      intro k hk
      rcases hsub k hk with hk1 | hk2
      · rcases mem_of_step_keys m c.name _ hstep k hk1 with h | h
        · exact Or.inl h
        · right
          rw [List.map_cons, h]
          exact List.mem_cons_self _ _
      · right
        rw [List.map_cons]
        exact List.mem_cons_of_mem _ hk2

theorem all_matches_keys_facts (dist : ℚ → ℚ → ℚ → ℚ → ℚ) (sim : Str → Str → ℚ)
    (ctn : Building → ℚ × ℚ → Bool) (tr : ℚ × ℚ → Except Unit (ℚ × ℚ))
    (conns : List ConnCp) (dbs : List DbCp) (features : List Feature) :
    (keysOf (all_matches dist sim ctn tr conns dbs features)).Nodup ∧
    ∀ k ∈ keysOf (all_matches dist sim ctn tr conns dbs features),
      k ∈ conns.map ConnCp.name := by
  have h1 := phase1_keys dist dbs conns [] (by simp [keysOf])
  have h2 := phase2_keys sim dbs conns (phase1 dist dbs conns []) h1.1
  have h3 := phase3_keys (buildBuildings tr features) ctn dbs conns
    (phase2 sim dbs conns (phase1 dist dbs conns [])) h2.1
  rw [all_matches]
  refine ⟨h3.1, ?_⟩
  intro k hk
  rcases h3.2 k hk with hk2 | hk2
  · rcases h2.2 k hk2 with hk3 | hk3
    · rcases h1.2 k hk3 with hk4 | hk4
      · simp [keysOf] at hk4
      · exact hk4
    · exact hk3
  · exact hk2

/-! ## Claim C10 -/

/-- C10: the aggregate fusion keys its result by the external record's name
alone — the final `all_matches` dictionary holds at most one entry per name
(its key sequence has no duplicates), every key is the name of some external
record, and (per the preservation lemmas) later strategy evidence for a
same-named record is merged into that single entry without changing its
stored canonical id. -/
theorem all_matches_unique_name_keys (dist : ℚ → ℚ → ℚ → ℚ → ℚ)
    (sim : Str → Str → ℚ) (ctn : Building → ℚ × ℚ → Bool)
    (tr : ℚ × ℚ → Except Unit (ℚ × ℚ)) (conns : List ConnCp) (dbs : List DbCp)
    (features : List Feature) :
    (keysOf (all_matches dist sim ctn tr conns dbs features)).Nodup ∧
    ∀ e ∈ all_matches dist sim ctn tr conns dbs features,
      e.connected_name ∈ conns.map ConnCp.name := by
  have h := all_matches_keys_facts dist sim ctn tr conns dbs features
  refine ⟨h.1, ?_⟩
  intro e he
  exact h.2 e.connected_name (List.mem_map_of_mem _ he)

/-! ## Claim C1 -/

/-- C1 counterexample: a single external record matched by no strategy (the
canonical collection and the footprint collection are empty) receives NO
entry at all — `all_matches` is empty, so the result size is 0, not the
claimed one-verdict-per-external-record length 1. -/
theorem unmatched_record_gets_no_entry :
    all_matches exDistC2 zeroSim exCtn2 exTrOk [exConn2] [] [] = [] ∧
    ([] : List Entry).length ≠ [exConn2].length := by
  constructor
  · decide
  · decide

/-- C1 amended: the fusion dictionary holds at most one entry per distinct
external name and only for names some strategy matched; an external record
matched by no strategy receives no entry, so the result size is at most (not
equal to) the number of external records. -/
theorem all_matches_length_le_external (dist : ℚ → ℚ → ℚ → ℚ → ℚ)
    (sim : Str → Str → ℚ) (ctn : Building → ℚ × ℚ → Bool)
    (tr : ℚ × ℚ → Except Unit (ℚ × ℚ)) (conns : List ConnCp) (dbs : List DbCp)
    (features : List Feature) :
    (all_matches dist sim ctn tr conns dbs features).length ≤ conns.length := by
  have h := all_matches_keys_facts dist sim ctn tr conns dbs features
  have hlen : (keysOf (all_matches dist sim ctn tr conns dbs features)).length =
      (all_matches dist sim ctn tr conns dbs features).length := by
    simp [keysOf]
  calc (all_matches dist sim ctn tr conns dbs features).length
      = (keysOf (all_matches dist sim ctn tr conns dbs features)).length := hlen.symm
    _ = (keysOf (all_matches dist sim ctn tr conns dbs features)).toFinset.card :=
        (List.toFinset_card_of_nodup h.1).symm
    _ ≤ (conns.map ConnCp.name).toFinset.card := by
        apply Finset.card_le_card
        intro x hx
        rw [List.mem_toFinset] at *
        exact h.2 x (by assumption)
    _ ≤ (conns.map ConnCp.name).length := List.toFinset_card_le _
    _ = conns.length := List.length_map _ _

/-! ## Character and substitution lemmas for `normalize_address` -/

theorem char_toNat_ofNat (n : Nat) (h : n.isValidChar) : (Char.ofNat n).toNat = n := by
  rw [Char.ofNat, dif_pos h]
  rfl

theorem lowChar_idem (c : Char) : lowChar (lowChar c) = lowChar c := by
  by_cases h : 65 ≤ c.toNat ∧ c.toNat ≤ 90
  · have h1 : lowChar c = Char.ofNat (c.toNat + 32) := by rw [lowChar, if_pos h]
    have hv : (c.toNat + 32).isValidChar := Or.inl (by omega)
    have h2 : (Char.ofNat (c.toNat + 32)).toNat = c.toNat + 32 := char_toNat_ofNat _ hv
    rw [h1, lowChar, h2, if_neg (by omega)]
  · have h1 : lowChar c = c := by rw [lowChar, if_neg h]
    rw [h1]
    exact h1

theorem mem_lowerStr (c : Char) (s : Str) (h : c ∈ lowerStr s) : ∃ d, c = lowChar d := by
  rcases List.mem_map.mp h with ⟨d, _, hd⟩
  exact ⟨d, hd.symm⟩

theorem mem_strip (c : Char) (s : Str) (h : c ∈ strip s) : c ∈ s := by
  rw [strip, List.mem_reverse] at h
  have h2 : c ∈ (ltrim s).reverse := (List.dropWhile_sublist _).subset h
  rw [List.mem_reverse] at h2
  exact (List.dropWhile_sublist _).subset h2

theorem mem_replaceAllAux (pat new : Str) (fuel : Nat) :
    ∀ (s : Str) (c : Char), c ∈ replaceAllAux pat new fuel s → c ∈ s ∨ c ∈ new := by
  induction fuel with
  | zero => intro s c h; exact Or.inl h
  | succ fuel ih =>
    intro s c h
    cases s with
    | nil => simp [replaceAllAux] at h
    | cons a cs =>
      rw [replaceAllAux] at h
      by_cases hc : pat ≠ [] ∧ leadSeg pat (a :: cs) = true
      · rw [if_pos hc] at h
        rcases List.mem_append.mp h with h1 | h1
        · exact Or.inr h1
        · rcases ih _ c h1 with h2 | h2
          · exact Or.inl (List.mem_cons_of_mem a (List.drop_subset _ _ h2))
          · exact Or.inr h2
      · rw [if_neg hc] at h
        rcases List.mem_cons.mp h with h1 | h1
        · exact Or.inl (h1 ▸ List.mem_cons_self a cs)
        · rcases ih _ c h1 with h2 | h2
          · exact Or.inl (List.mem_cons_of_mem a h2)
          · exact Or.inr h2

theorem mem_replaceAll (s pat new : Str) (c : Char) (h : c ∈ replaceAll s pat new) :
    c ∈ s ∨ c ∈ new :=
  mem_replaceAllAux pat new s.length s c h

theorem mem_replChain (s : Str) (c : Char) (h : c ∈ replChain s) :
    c ∈ s ∨ lowChar c = c := by
  rw [replChain] at h
  rcases mem_replaceAll _ _ _ _ h with h | h
  rcases mem_replaceAll _ _ _ _ h with h | h
  rcases mem_replaceAll _ _ _ _ h with h | h
  rcases mem_replaceAll _ _ _ _ h with h | h
  rcases mem_replaceAll _ _ _ _ h with h | h
  rcases mem_replaceAll _ _ _ _ h with h | h
  rcases mem_replaceAll _ _ _ _ h with h | h
  rcases mem_replaceAll _ _ _ _ h with h | h
  · exact Or.inl h
  · exact Or.inr ((by decide : ∀ d ∈ str "rd", lowChar d = d) c h)
  · exact Or.inr ((by decide : ∀ d ∈ str "st", lowChar d = d) c h)
  · exact Or.inr ((by decide : ∀ d ∈ str "ave", lowChar d = d) c h)
  · exact Or.inr ((by decide : ∀ d ∈ str "bldg", lowChar d = d) c h)
  · exact Or.inr ((by decide : ∀ d ∈ str "center", lowChar d = d) c h)
  · exact Or.inr ((by decide : ∀ d ∈ str "carpark", lowChar d = d) c h)
  · cases h
  · cases h

/-! ## Word-splitting lemmas -/

theorem splitAux_chars (s : Str) :
    ∀ w ∈ splitAux s, ∀ c ∈ w, c ∈ s ∧ isSp c = false := by
  induction s with
  | nil => intro w hw; cases hw
  | cons a cs ih =>
    intro w hw c hc
    simp only [splitAux, List.foldr_cons] at hw
    by_cases ha : isSp a = true
    · rw [if_pos ha] at hw
      rcases List.mem_cons.mp hw with h1 | h1
      · subst h1; cases hc
      · have := ih w h1 c hc
        exact ⟨List.mem_cons_of_mem a this.1, this.2⟩
    · rw [if_neg ha] at hw
      rcases hsp : splitAux cs with _ | ⟨w0, ws0⟩
      · rw [splitAux] at hsp
        rw [hsp] at hw
        rcases List.mem_cons.mp hw with h1 | h1
        · subst h1
          rcases List.mem_cons.mp hc with h2 | h2
          · subst h2
            exact ⟨List.mem_cons_self c cs, Bool.not_eq_true _ ▸ ha⟩
          · cases h2
        · cases h1
      · rw [splitAux] at hsp
        rw [hsp] at hw
        rcases List.mem_cons.mp hw with h1 | h1
        · subst h1
          rcases List.mem_cons.mp hc with h2 | h2
          · subst h2
            exact ⟨List.mem_cons_self c cs, Bool.not_eq_true _ ▸ ha⟩
          · have := ih w0 (by rw [splitAux, hsp]; exact List.mem_cons_self w0 ws0) c h2
            exact ⟨List.mem_cons_of_mem a this.1, this.2⟩
        · have := ih w (by rw [splitAux, hsp]; exact List.mem_cons_of_mem w0 h1) c hc
          exact ⟨List.mem_cons_of_mem a this.1, this.2⟩

theorem splitWs_chars (s : Str) :
    ∀ w ∈ splitWs s, w ≠ [] ∧ ∀ c ∈ w, c ∈ s ∧ isSp c = false := by
  intro w hw
  rw [splitWs] at hw
  have h1 := List.of_mem_filter hw
  have h2 := List.mem_of_mem_filter hw
  refine ⟨?_, splitAux_chars s w h2⟩
  intro hnil
  rw [hnil] at h1
  simp at h1

theorem splitFold_word (w : Str) (hns : ∀ c ∈ w, isSp c = false) (a : Str)
    (r : List Str) :
    w.foldr
      (fun c acc =>
        if isSp c then [] :: acc
        else
          match acc with
          | [] => [[c]]
          | w :: ws => (c :: w) :: ws)
      (a :: r) = (w ++ a) :: r := by
  induction w with
  | nil => rfl
  | cons c w' ih =>
    rw [List.foldr_cons, ih (fun d hd => hns d (List.mem_cons_of_mem c hd))]
    rw [if_neg (by rw [hns c (List.mem_cons_self c w')]; simp)]
    rfl

theorem splitFold_single (w : Str) (hw : w ≠ []) (hns : ∀ c ∈ w, isSp c = false) :
    w.foldr
      (fun c acc =>
        if isSp c then [] :: acc
        else
          match acc with
          | [] => [[c]]
          | w :: ws => (c :: w) :: ws)
      [] = [w] := by
  induction w with
  | nil => exact absurd rfl hw
  | cons c w' ih =>
    cases w' with
    | nil =>
      rw [List.foldr_cons]
      rw [if_neg (by rw [hns c (List.mem_cons_self c [])]; simp)]
      rfl
    | cons d w'' =>
      rw [List.foldr_cons, ih (by simp) (fun e he => hns e (List.mem_cons_of_mem c he))]
      rw [if_neg (by rw [hns c (List.mem_cons_self c (d :: w''))]; simp)]

theorem splitAux_word_append (w : Str) (hns : ∀ c ∈ w, isSp c = false) (t : Str) :
    splitAux (w ++ ' ' :: t) = (w ++ []) :: splitAux t := by
  rw [splitAux, splitAux, List.foldr_append, List.foldr_cons]
  rw [if_pos (by decide : isSp ' ' = true)]
  exact splitFold_word w hns [] _

theorem joinSpace_ne_nil (w : Str) (ws : List Str) (hw : w ≠ []) :
    joinSpace (w :: ws) ≠ [] := by
  cases ws with
  | nil => exact hw
  | cons v ws' =>
    show w ++ ' ' :: joinSpace (v :: ws') ≠ []
    cases w with
    | nil => exact absurd rfl hw
    | cons c w₂ => simp

theorem splitWs_joinSpace (ws : List Str)
    (h : ∀ w ∈ ws, w ≠ [] ∧ ∀ c ∈ w, isSp c = false) :
    splitWs (joinSpace ws) = ws := by
  induction ws with
  | nil => rfl
  | cons w ws' ih =>
    have hw := h w (List.mem_cons_self w ws')
    cases ws' with
    | nil =>
      show splitWs w = [w]
      have h2 : splitAux w = [w] := by
        rw [splitAux]
        exact splitFold_single w hw.1 hw.2
      rw [splitWs, h2, List.filter_cons]
      rw [if_pos (by simpa using hw.1)]
      rfl
    | cons v ws'' =>
      show splitWs (w ++ ' ' :: joinSpace (v :: ws'')) = w :: v :: ws''
      rw [splitWs, splitAux_word_append w hw.2, List.append_nil, List.filter_cons]
      rw [if_pos (by simpa using hw.1)]
      have htail := ih (fun u hu => h u (List.mem_cons_of_mem w hu))
      rw [splitWs] at htail
      rw [htail]

theorem mem_joinSpace (ws : List Str) (c : Char) (h : c ∈ joinSpace ws) :
    (∃ w ∈ ws, c ∈ w) ∨ c = ' ' := by
  induction ws with
  | nil => cases h
  | cons w ws' ih =>
    cases ws' with
    | nil => exact Or.inl ⟨w, List.mem_cons_self w [], h⟩
    | cons v ws'' =>
      have h' : c ∈ w ++ ' ' :: joinSpace (v :: ws'') := h
      rcases List.mem_append.mp h' with h1 | h1
      · exact Or.inl ⟨w, List.mem_cons_self w _, h1⟩
      · rcases List.mem_cons.mp h1 with h2 | h2
        · exact Or.inr h2
        · rcases ih h2 with ⟨w', hw', hc⟩ | h3
          · exact Or.inl ⟨w', List.mem_cons_of_mem w hw', hc⟩
          · exact Or.inr h3

/-! ## Strip lemmas -/

theorem dropWhile_eq_self_of_head (l : Str) (p : Char → Bool)
    (h : ∀ c, l.head? = some c → p c = false) : l.dropWhile p = l := by
  cases l with
  | nil => rfl
  | cons c cs =>
    rw [List.dropWhile_cons, h c rfl]
    simp

theorem dropWhile_eq_self_of_all_false (l : Str) (p : Char → Bool)
    (h : ∀ c ∈ l, p c = false) : l.dropWhile p = l := by
  cases l with
  | nil => rfl
  | cons c cs =>
    rw [List.dropWhile_cons, h c (List.mem_cons_self c cs)]
    simp

theorem joinSpace_head (w : Str) (ws : List Str) (c : Char) (w₂ : Str)
    (hw : w = c :: w₂) : (joinSpace (w :: ws)).head? = some c := by
  cases ws with
  | nil => rw [hw]; rfl
  | cons v ws'' =>
    show (w ++ ' ' :: joinSpace (v :: ws'')).head? = some c
    rw [hw]
    rfl

theorem ltrim_joinSpace (ws : List Str)
    (h : ∀ w ∈ ws, w ≠ [] ∧ ∀ c ∈ w, isSp c = false) :
    ltrim (joinSpace ws) = joinSpace ws := by
  cases ws with
  | nil => rfl
  | cons w ws' =>
    have hw := h w (List.mem_cons_self w ws')
    rcases hwc : w with _ | ⟨c, w₂⟩
    · exact absurd hwc hw.1
    · apply dropWhile_eq_self_of_head
      intro d hd
      rw [joinSpace_head (c :: w₂) ws' c w₂ rfl] at hd
      have hdc : d = c := by simpa using hd.symm
      rw [hdc]
      exact hw.2 c (hwc ▸ List.mem_cons_self c w₂)

theorem rtrim_joinSpace (ws : List Str)
    (h : ∀ w ∈ ws, w ≠ [] ∧ ∀ c ∈ w, isSp c = false) :
    (joinSpace ws).reverse.dropWhile isSp = (joinSpace ws).reverse := by
  induction ws with
  | nil => rfl
  | cons w ws' ih =>
    have hw := h w (List.mem_cons_self w ws')
    cases ws' with
    | nil =>
      apply dropWhile_eq_self_of_all_false
      intro c hc
      rw [List.mem_reverse] at hc
      exact hw.2 c hc
    | cons v ws'' =>
      have hJ := ih (fun u hu => h u (List.mem_cons_of_mem w hu))
      have hv := h v (List.mem_cons_of_mem w (List.mem_cons_self v ws''))
      have hJne : joinSpace (v :: ws'') ≠ [] := joinSpace_ne_nil v ws'' hv.1
      rcases hrev : (joinSpace (v :: ws'')).reverse with _ | ⟨c0, rest⟩
      · exact absurd (List.reverse_eq_nil_iff.mp hrev) hJne
      · have hc0 : isSp c0 = false := by
          rw [hrev, List.dropWhile_cons] at hJ
          by_cases hsp : isSp c0 = true
          · rw [if_pos hsp] at hJ
            have hlen : (List.dropWhile isSp rest).length ≤ rest.length :=
              (List.dropWhile_sublist _).length_le
            rw [hJ] at hlen
            simp at hlen
          · simpa using hsp
        show (joinSpace (w :: v :: ws'')).reverse.dropWhile isSp =
          (joinSpace (w :: v :: ws'')).reverse
        have hform : (joinSpace (w :: v :: ws'')).reverse =
            c0 :: (rest ++ [' '] ++ w.reverse) := by
          show (w ++ ' ' :: joinSpace (v :: ws'')).reverse = _
          rw [List.reverse_append, List.reverse_cons, hrev]
          simp
        rw [hform, List.dropWhile_cons, hc0]
        simp

theorem strip_joinSpace (ws : List Str)
    (h : ∀ w ∈ ws, w ≠ [] ∧ ∀ c ∈ w, isSp c = false) :
    strip (joinSpace ws) = joinSpace ws := by
  rw [strip, ltrim_joinSpace ws h, rtrim_joinSpace ws h, List.reverse_reverse]

/-! ## Lower-casing is the identity on normalized output -/

theorem map_eq_self_of_fix (f : Char → Char) (l : Str) (h : ∀ c ∈ l, f c = c) :
    l.map f = l := by
  induction l with
  | nil => rfl
  | cons c cs ih =>
    rw [List.map_cons, h c (List.mem_cons_self c cs),
      ih (fun d hd => h d (List.mem_cons_of_mem c hd))]

theorem normalize_chars (x : Str) (c : Char) (h : c ∈ normalize_address x) :
    lowChar c = c := by
  rw [normalize_address] at h
  by_cases hx : x = []
  · rw [if_pos hx] at h
    cases h
  · rw [if_neg hx] at h
    rcases mem_joinSpace _ c h with ⟨w, hw, hc⟩ | hsp
    · have hz := ((splitWs_chars _ w hw).2 c hc).1
      rcases mem_replChain _ c hz with h1 | h1
      · have h2 := mem_strip c _ h1
        rcases mem_lowerStr c _ h2 with ⟨d, hd⟩
        rw [hd]
        exact lowChar_idem d
      · exact h1
    · rw [hsp]
      decide

/-! ## Claim C8 -/

/-- C8 counterexample: `normalize_address` is not idempotent.  The input
"car  park" (two spaces) is not touched by the substitution table on the
first pass — "car park" is only produced by the final whitespace collapse —
so a second pass applies the car park→carpark substitution and changes the
result from "car park" to "carpark". -/
theorem normalize_address_not_idempotent :
    normalize_address (str "car  park") = str "car park" ∧
    normalize_address (normalize_address (str "car  park")) = str "carpark" ∧
    normalize_address (normalize_address (str "car  park")) ≠
      normalize_address (str "car  park") := by
  refine ⟨by decide, by decide, by decide⟩

/-- C8 amended: `normalize_address` is idempotent on every input whose
normalized form is left unchanged by the substitution table — i.e. whenever
`replChain (normalize_address x) = normalize_address x`, a second
application is the identity.  (Unconditional idempotence fails: stripping
commas/periods and collapsing whitespace happen after the substitution pass,
so they can create fresh substitution-table matches for a second pass, as
the counterexample shows.) -/
theorem normalize_address_conditional_idempotent (x : Str)
    (h : replChain (normalize_address x) = normalize_address x) :
    normalize_address (normalize_address x) = normalize_address x := by
  by_cases hx : x = []
  · rw [hx]
    decide
  · by_cases hy : normalize_address x = []
    · rw [hy]
      decide
    · have hgood : ∀ w ∈ splitWs (replChain (strip (lowerStr x))),
          w ≠ [] ∧ ∀ c ∈ w, isSp c = false :=
        fun w hw => ⟨(splitWs_chars _ w hw).1,
          fun c hc => ((splitWs_chars _ w hw).2 c hc).2⟩
      have hyform : normalize_address x =
          joinSpace (splitWs (replChain (strip (lowerStr x)))) := by
        rw [normalize_address, if_neg hx]
      have hlow : lowerStr (normalize_address x) = normalize_address x :=
        map_eq_self_of_fix lowChar _ (fun c hc => normalize_chars x c hc)
      have hstr : strip (normalize_address x) = normalize_address x := by
        rw [hyform]
        exact strip_joinSpace _ hgood
      show (if normalize_address x = [] then []
        else joinSpace (splitWs (replChain (strip (lowerStr (normalize_address x)))))) =
          normalize_address x
      rw [if_neg hy, hlow, hstr, h, hyform, splitWs_joinSpace _ hgood]

/-- C8 witness: the conditional idempotence applied at a concrete input
whose normalized form ("abc def") matches no substitution pattern. -/
theorem normalize_address_conditional_idempotent_witness :
    replChain (normalize_address (str "abc, def")) = normalize_address (str "abc, def") ∧
    normalize_address (normalize_address (str "abc, def")) =
      normalize_address (str "abc, def") :=
  ⟨by decide, normalize_address_conditional_idempotent (str "abc, def") (by decide)⟩
